import Mathlib

/-!
Verification development for the chain-data-indexer ingest engine.

Each section shallowly embeds one component of the TypeScript source:

* `src/normalize/events/base64.ts` — canonical base64 detection and UTF-8 decode
* `src/utils/bytes.ts`, `src/assemble/blockJson.ts` — tx hashing and block assembly
* `src/rpc/ratelimit.ts`, `src/rpc/client.ts` — token bucket and retry loop
* `src/runner/syncRange.ts` — ordered flush over unordered completions
* `src/sink/postgres.ts` (sink/index.ts) — row extraction, batch flush, progress

JavaScript numbers are modelled as `ℚ` (plus an explicit not-a-number marker
where `Number(x)` can fail), byte strings as `List ℕ`, and dynamic JS values
by the inductive `Js` type further below.
-/

namespace Indexer

/-! ## Bytes, hex and base64 (src/utils/bytes.ts, Buffer/cosmjs semantics) -/

/-- Lowercase hex digits, as produced by `toHex` from `@cosmjs/encoding`. -/
def hexDigitChar (n : ℕ) : Char :=
  (String.data "0123456789abcdef").getD n '0'

/-- Hex rendering of a byte list, two lowercase digits per byte
(`bytesToHex` in src/utils/bytes.ts). -/
def bytesToHex (bs : List ℕ) : String :=
  String.mk (bs.flatMap (fun b => [hexDigitChar (b / 16), hexDigitChar (b % 16)]))

/-- ASCII uppercase of a single character (JS `String.prototype.toUpperCase`
restricted to the ASCII range, which is all this pipeline feeds it). -/
def upperChar (c : Char) : Char :=
  if 'a' ≤ c ∧ c ≤ 'z' then Char.ofNat (c.toNat - 32) else c

/-- ASCII uppercase of a string. -/
def toUpperAscii (s : String) : String :=
  String.mk (s.data.map upperChar)

/-- Whether a character belongs to the base64 alphabet `[A-Za-z0-9+/]`. -/
def isB64Char (c : Char) : Bool :=
  ('A' ≤ c ∧ c ≤ 'Z') ∨ ('a' ≤ c ∧ c ≤ 'z') ∨ ('0' ≤ c ∧ c ≤ '9') ∨ c = '+' ∨ c = '/'

/-- Value of a base64 alphabet character (0–63); junk for other characters. -/
def b64Val (c : Char) : ℕ :=
  if 'A' ≤ c ∧ c ≤ 'Z' then c.toNat - 65
  else if 'a' ≤ c ∧ c ≤ 'z' then c.toNat - 97 + 26
  else if '0' ≤ c ∧ c ≤ '9' then c.toNat - 48 + 52
  else if c = '+' then 62
  else 63

/-- Base64 alphabet character for a 6-bit value. -/
def b64Char (n : ℕ) : Char :=
  (String.data "ABCDEFGHIJKLMNOPQRSTUVWXYZabcdefghijklmnopqrstuvwxyz0123456789+/").getD n 'A'

/-- Base64 decode of a list of characters already known to have valid shape:
groups of four characters, the last group optionally padded with one or two
`=`. Padding bits are truncated exactly as `Buffer.from(s, 'base64')` does. -/
def b64DecodeGroups : List Char → List ℕ
  | c1 :: c2 :: c3 :: c4 :: rest =>
    let v1 := b64Val c1
    let v2 := b64Val c2
    if c3 = '=' then [v1 * 4 + v2 / 16]
    else
      let v3 := b64Val c3
      if c4 = '=' then [v1 * 4 + v2 / 16, (v2 % 16) * 16 + v3 / 4]
      else (v1 * 4 + v2 / 16) :: ((v2 % 16) * 16 + v3 / 4) ::
        ((v3 % 4) * 64 + b64Val c4) :: b64DecodeGroups rest
  | _ => []

/-- Base64 decode of a string (meaningful on shape-valid inputs). -/
def base64Decode (s : String) : List ℕ :=
  b64DecodeGroups s.data

/-- Base64 encode of a byte list with canonical (zero) padding bits,
as `Buffer.prototype.toString('base64')` and `toBase64` produce. -/
def b64EncodeChunks : List ℕ → List Char
  | b1 :: b2 :: b3 :: rest =>
    b64Char (b1 / 4) :: b64Char ((b1 % 4) * 16 + b2 / 16) ::
      b64Char ((b2 % 16) * 4 + b3 / 64) :: b64Char (b3 % 64) :: b64EncodeChunks rest
  | [b1, b2] =>
    [b64Char (b1 / 4), b64Char ((b1 % 4) * 16 + b2 / 16), b64Char ((b2 % 16) * 4), '=']
  | [b1] => [b64Char (b1 / 4), b64Char ((b1 % 4) * 16), '=', '=']
  | [] => []

/-- Base64 encoding of a byte list. -/
def base64Encode (bs : List ℕ) : String :=
  String.mk (b64EncodeChunks bs)

/-- Number of trailing `=` padding characters. -/
def b64PadLen (cs : List Char) : ℕ :=
  (cs.reverse.takeWhile (· = '=')).length

/-- Shape test of `isCanonicalBase64` before the round-trip check
(src/normalize/events/base64.ts lines 22–23): nonempty, length a multiple of
four, and matching `^[A-Za-z0-9+/]+={0,2}$`. -/
def b64Shape (s : String) : Bool :=
  let cs := s.data
  let pad := b64PadLen cs
  (decide (s ≠ "")) && cs.length % 4 = 0 && pad ≤ 2 &&
    decide (1 ≤ cs.length - pad) && (cs.take (cs.length - pad)).all isB64Char

/-- Strict base64 validator (`isCanonicalBase64` in
src/normalize/events/base64.ts): shape plus the decode/re-encode round trip.
`Buffer.from(_, 'base64')` never throws, so the `try` in the source is dead. -/
def isCanonicalBase64 (s : String) : Bool :=
  b64Shape s && base64Encode (base64Decode s) = s

/-- Base64 decoding as `fromBase64` from `@cosmjs/encoding`
(src/utils/bytes.ts `base64ToBytes`): same alphabet/padding regex but with a
possibly-empty body, length a multiple of four; throws (`none`) otherwise. -/
def cosmBase64Decode (s : String) : Option (List ℕ) :=
  let cs := s.data
  let pad := b64PadLen cs
  if cs.length % 4 = 0 ∧ pad ≤ 2 ∧ (cs.take (cs.length - pad)).all isB64Char then
    some (b64DecodeGroups cs)
  else none

/-! ## Strict UTF-8 decoding (WHATWG `TextDecoder('utf-8', fatal: true)`) -/

/-- Whether a byte is a UTF-8 continuation byte `0x80–0xBF`. -/
def isCont (b : ℕ) : Bool := 0x80 ≤ b ∧ b < 0xC0

/-- Strict UTF-8 decode of a byte list into Unicode code points. Rejects
overlong forms, surrogates and code points above `0x10FFFF`, as the fatal
`TextDecoder` used by `tryB64ToUtf8` does. -/
def utf8Decode : List ℕ → Option (List ℕ)
  | [] => some []
  | b :: rest =>
    if b < 0x80 then (utf8Decode rest).map (b :: ·)
    else if b < 0xC2 then none
    else if b < 0xE0 then
      match rest with
      | b2 :: rest2 =>
        if isCont b2 then (utf8Decode rest2).map (((b - 0xC0) * 64 + (b2 - 0x80)) :: ·)
        else none
      | _ => none
    else if b < 0xF0 then
      match rest with
      | b2 :: b3 :: rest3 =>
        let cp := (b - 0xE0) * 4096 + (b2 - 0x80) * 64 + (b3 - 0x80)
        if isCont b2 ∧ isCont b3 ∧ 0x800 ≤ cp ∧ ¬(0xD800 ≤ cp ∧ cp ≤ 0xDFFF) then
          (utf8Decode rest3).map (cp :: ·)
        else none
      | _ => none
    else if b < 0xF5 then
      match rest with
      | b2 :: b3 :: b4 :: rest4 =>
        let cp := (b - 0xF0) * 262144 + (b2 - 0x80) * 4096 + (b3 - 0x80) * 64 + (b4 - 0x80)
        if isCont b2 ∧ isCont b3 ∧ isCont b4 ∧ 0x10000 ≤ cp ∧ cp ≤ 0x10FFFF then
          (utf8Decode rest4).map (cp :: ·)
        else none
      | _ => none
    else none

/-- String from a list of Unicode code points (valid scalar values). -/
def strOfCps (cps : List ℕ) : String :=
  String.mk (cps.map Char.ofNat)

/-! ## Event attribute base64 normalization (src/normalize/events/base64.ts) -/

/-- Allowed code points of the text heuristic in `tryB64ToUtf8`
(the JS regex `^[\x09\x0A\x0D\x20-\x7E\u0080-￿]*$`). The regex tests
UTF-16 code units; a code point `≥ 0x10000` is two surrogates, both inside
`\u0080-￿`, so in code-point terms the allowed set is `{9, 0xA, 0xD}`,
`0x20–0x7E` and everything `≥ 0x80`. -/
def allowedCp (c : ℕ) : Bool :=
  c = 0x09 ∨ c = 0x0A ∨ c = 0x0D ∨ (0x20 ≤ c ∧ c ≤ 0x7E) ∨ 0x80 ≤ c

/-- The `tryB64ToUtf8` normalizer: decode canonical base64 to UTF-8 text when
the result is printable text, otherwise return the input unchanged. -/
def tryB64ToUtf8 (s : String) : String :=
  if isCanonicalBase64 s then
    match utf8Decode (base64Decode s) with
    | some cps => if cps.all allowedCp then strOfCps cps else s
    | none => s
  else s

/-- C8: a string attribute value that is canonical base64 (valid alphabet and
padding, and re-encoding the decoded bytes reproduces the string) whose
decoded bytes are valid UTF-8 made only of `0x09`, `0x0A`, `0x0D`,
`0x20`–`0x7E` or code points `≥ 0x80` is replaced by the decoded text; every
other string — including non-canonical base64 — passes through unchanged, and
canonical base64 satisfies the decode/re-encode round trip. -/
theorem tryB64ToUtf8_spec (s : String) :
    (∀ cps, isCanonicalBase64 s = true → utf8Decode (base64Decode s) = some cps →
      cps.all allowedCp = true → tryB64ToUtf8 s = strOfCps cps) ∧
    (isCanonicalBase64 s = true → base64Encode (base64Decode s) = s) ∧
    (isCanonicalBase64 s = false → tryB64ToUtf8 s = s) ∧
    (utf8Decode (base64Decode s) = none → tryB64ToUtf8 s = s) ∧
    (∀ cps, utf8Decode (base64Decode s) = some cps → cps.all allowedCp = false →
      tryB64ToUtf8 s = s) := by
  refine ⟨?_, ?_, ?_, ?_, ?_⟩
  · intro cps hcanon hdec hall
    simp [tryB64ToUtf8, hcanon, hdec, hall]
  · intro hcanon
    simp [isCanonicalBase64] at hcanon
    exact hcanon.2
  · intro hcanon
    simp [tryB64ToUtf8, hcanon]
  · intro hdec
    by_cases hcanon : isCanonicalBase64 s <;> simp [tryB64ToUtf8, hcanon, hdec]
  · intro cps hdec hall
    by_cases hcanon : isCanonicalBase64 s <;> simp [tryB64ToUtf8, hcanon, hdec, hall]

/-- Witness for `tryB64ToUtf8_spec` at the base64 encoding of "recipient"
and at a non-canonical input. -/
theorem tryB64ToUtf8_spec_witness :
    tryB64ToUtf8 "cmVjaXBpZW50" = "recipient" ∧ tryB64ToUtf8 "AB==" = "AB==" := by
  constructor
  · have h := (tryB64ToUtf8_spec "cmVjaXBpZW50").1
      [114, 101, 99, 105, 112, 105, 101, 110, 116] (by decide) (by decide) (by decide)
    simpa [strOfCps] using h
  · have h := (tryB64ToUtf8_spec "AB==").2.2.2.2 [0] (by decide) (by decide)
    exact h

/-! ## Token bucket (src/rpc/ratelimit.ts) and its RPC-client instantiation
(src/rpc/client.ts line 101) -/

/-- Capacity computed by `createTokenBucket`:
`Math.max(1, Math.floor(rps * burstMultiplier))`. -/
def tokenBucketCapacity (rps burstMultiplier : ℚ) : ℤ :=
  max 1 ⌊rps * burstMultiplier⌋

/-- Continuous refill rate of `createTokenBucket` in tokens per millisecond
(`refillPerMs = rps / 1000`). -/
def tokenBucketRefillPerMs (rps : ℚ) : ℚ :=
  rps / 1000

/-- The `rps` argument the RPC client passes to `createTokenBucket`:
`Math.max(1, Math.floor(opts.rps))`. -/
def rpcClientRps (rps : ℚ) : ℤ :=
  max 1 ⌊rps⌋

/-- Capacity of the token bucket guarding the RPC transport
(`createTokenBucket(Math.max(1, Math.floor(opts.rps)), 2)`). -/
def rpcBucketCapacity (rps : ℚ) : ℤ :=
  tokenBucketCapacity ((rpcClientRps rps : ℤ) : ℚ) 2

/-- Refill rate (tokens per millisecond) of the RPC transport's bucket. -/
def rpcBucketRefillPerMs (rps : ℚ) : ℚ :=
  tokenBucketRefillPerMs ((rpcClientRps rps : ℤ) : ℚ)

/-- State of a token bucket: current tokens and timestamp of the last refill. -/
structure BucketState where
  tokens : ℚ
  last : ℚ

/-- The `refill()` closure of `createTokenBucket`: adds `elapsed × refillPerMs`
tokens, capped at the capacity. -/
def bucketRefill (capacity : ℤ) (ratePerMs : ℚ) (st : BucketState) (now : ℚ) :
    BucketState :=
  let elapsed := now - st.last
  if 0 < elapsed then
    { tokens := min ((capacity : ℚ)) (st.tokens + elapsed * ratePerMs), last := now }
  else st

/-- C9: for every `rps` admitted by the configuration schema (an integer
`≥ 1`), the RPC transport's token bucket has capacity
`⌈rps × burst_multiplier⌉` with burst multiplier 2, and refills at `rps`
tokens per second (i.e. `rps / 1000` per millisecond, applied continuously
by `bucketRefill`). -/
theorem rpcBucket_capacity_and_rate (n : ℤ) (h : 1 ≤ n) :
    rpcBucketCapacity (n : ℚ) = ⌈(n : ℚ) * 2⌉ ∧
    rpcBucketRefillPerMs (n : ℚ) * 1000 = (n : ℚ) ∧
    (∀ st now, st.last < now →
      (bucketRefill (rpcBucketCapacity (n : ℚ)) (rpcBucketRefillPerMs (n : ℚ)) st now).tokens =
        min ((rpcBucketCapacity (n : ℚ) : ℚ)) (st.tokens + (now - st.last) * ((n : ℚ) / 1000))) := by
  have hclient : rpcClientRps (n : ℚ) = n := by
    simp only [rpcClientRps, Int.floor_intCast]
    omega
  have hcap : rpcBucketCapacity (n : ℚ) = n * 2 := by
    simp only [rpcBucketCapacity, tokenBucketCapacity, hclient]
    have : ((n : ℚ) * 2) = ((n * 2 : ℤ) : ℚ) := by push_cast; ring
    rw [this, Int.floor_intCast]
    omega
  have hrate : rpcBucketRefillPerMs (n : ℚ) = (n : ℚ) / 1000 := by
    simp [rpcBucketRefillPerMs, tokenBucketRefillPerMs, hclient]
  refine ⟨?_, ?_, ?_⟩
  · rw [hcap]
    have : ((n : ℚ) * 2) = ((n * 2 : ℤ) : ℚ) := by push_cast; ring
    rw [this, Int.ceil_intCast]
  · rw [hrate]; field_simp
  · intro st now hlt
    rw [hrate]
    simp [bucketRefill, sub_pos.mpr hlt]

/-- Witness for `rpcBucket_capacity_and_rate` at the default `rps = 150`. -/
theorem rpcBucket_capacity_and_rate_witness :
    (1 : ℤ) ≤ 150 ∧
    (rpcBucketCapacity ((150 : ℤ) : ℚ) = ⌈((150 : ℤ) : ℚ) * 2⌉ ∧
      rpcBucketRefillPerMs ((150 : ℤ) : ℚ) * 1000 = ((150 : ℤ) : ℚ)) :=
  ⟨by decide,
    (rpcBucket_capacity_and_rate 150 (by decide)).1,
    (rpcBucket_capacity_and_rate 150 (by decide)).2.1⟩

/-! ## RPC retry loop (`getJson` in src/rpc/client.ts, lines 109–151) -/

/-- Result of one `fetch` attempt as the `getJson` loop can observe it:
either a resolved response (with its HTTP status and whether `res.json()`
succeeds — a parse failure surfaces as a non-transient thrown error because
the timeout timer is already cleared), or a rejected fetch carrying the JS
error's `name` and `code`. -/
inductive AttemptResult where
  | http (status : ℕ) (jsonOk : Bool)
  | net (name code : String)
  deriving DecidableEq

/-- JS `res.ok`: status in the range 200–299. -/
def httpOk (status : ℕ) : Bool :=
  200 ≤ status ∧ status ≤ 299

/-- The transient test of the catch branch:
`e.name === 'AbortError' || e.code === 'ECONNRESET' || e.code === 'ETIMEDOUT'`. -/
def isTransientError (name code : String) : Bool :=
  name = "AbortError" || code = "ECONNRESET" || code = "ETIMEDOUT"

/-- Whether an attempt outcome is retryable for `getJson`: HTTP `≥ 500` or
`429` on a non-ok response, or a transient network error. -/
def retryableResult : AttemptResult → Bool
  | .http status _ => !httpOk status && (decide (500 ≤ status) || status = 429)
  | .net name code => isTransientError name code

/-- Terminal outcome of `getJson`. -/
inductive RpcOutcome where
  | ok
  | httpError (status : ℕ)
  | parseError
  | netError (name code : String)
  | noAttempt
  deriving DecidableEq

/-- The `jitter(base, j)` helper (src/rpc/client.ts lines 71–75), with the
value of `Math.random() * 2 - 1` supplied as `r ∈ [-1, 1]`. -/
def jitterDelay (base j r : ℚ) : ℚ :=
  if j ≤ 0 then base else base + r * (base * j)

/-- One execution of the `getJson` retry loop from a given attempt number.
Attempt outcomes are drawn from the oracle list `outs` (one entry per
performed attempt) and jitter randomness from `rand`. Returns the list of
`(attempt, delay-ms)` sleeps performed and the terminal outcome. -/
def getJsonGo (retries : ℕ) (backoff j : ℚ) (rand : ℕ → ℚ) :
    ℕ → List AttemptResult → List (ℕ × ℚ) × RpcOutcome
  | _, [] => ([], .noAttempt)
  | attempt, .http status jsonOk :: rest =>
    if httpOk status then
      if jsonOk then ([], .ok) else ([], .parseError)
    else if (500 ≤ status ∨ status = 429) ∧ attempt < retries then
      let d := jitterDelay (backoff * 2 ^ attempt) j (rand attempt)
      let out := getJsonGo retries backoff j rand (attempt + 1) rest
      ((attempt, d) :: out.1, out.2)
    else ([], .httpError status)
  | attempt, .net name code :: rest =>
    if isTransientError name code ∧ attempt < retries then
      let d := jitterDelay (backoff * 2 ^ attempt) j (rand attempt)
      let out := getJsonGo retries backoff j rand (attempt + 1) rest
      ((attempt, d) :: out.1, out.2)
    else ([], .netError name code)

/-- Entry point of the retry loop (`for attempt = 0; attempt <= retries`). -/
def getJson (retries : ℕ) (backoff j : ℚ) (rand : ℕ → ℚ)
    (outs : List AttemptResult) : List (ℕ × ℚ) × RpcOutcome :=
  getJsonGo retries backoff j rand 0 outs

/-- Sleep-trace shape of the retry loop from any starting attempt: at most
`retries - attempt` sleeps, consecutively numbered from `attempt`, each with
the jittered exponential-backoff delay. -/
theorem getJsonGo_sleeps (retries : ℕ) (backoff j : ℚ) (rand : ℕ → ℚ) :
    ∀ (outs : List AttemptResult) (attempt : ℕ),
      (getJsonGo retries backoff j rand attempt outs).1.length + attempt ≤ retries ∨
        (getJsonGo retries backoff j rand attempt outs).1 = [] ∧
          (getJsonGo retries backoff j rand attempt outs).2 ≠ .noAttempt ∨
        (getJsonGo retries backoff j rand attempt outs).2 = .noAttempt := by
  intro outs
  induction outs with
  | nil => intro attempt; right; right; simp [getJsonGo]
  | cons o rest ih =>
    intro attempt
    match o with
    | .http status jsonOk =>
      by_cases hok : httpOk status
      · right; left
        cases jsonOk <;> simp [getJsonGo, hok]
      · by_cases hretry : (500 ≤ status ∨ status = 429) ∧ attempt < retries
        · rcases ih (attempt + 1) with hlen | ⟨hnil, _⟩ | hno
          · left
            simp only [getJsonGo, if_neg hok, if_pos hretry, List.length_cons]
            omega
          · left
            simp only [getJsonGo, if_neg hok, if_pos hretry, hnil, List.length_cons,
              List.length_nil]
            omega
          · right; right
            simp only [getJsonGo, if_neg hok, if_pos hretry]
            exact hno
        · right; left
          simp [getJsonGo, hok, hretry]
    | .net name code =>
      by_cases hretry : isTransientError name code ∧ attempt < retries
      · rcases ih (attempt + 1) with hlen | ⟨hnil, _⟩ | hno
        · left
          simp only [getJsonGo, if_pos hretry, List.length_cons]
          omega
        · left
          simp only [getJsonGo, if_pos hretry, hnil, List.length_cons, List.length_nil]
          omega
        · right; right
          simp only [getJsonGo, if_pos hretry]
          exact hno
      · right; left
        simp [getJsonGo, hretry]

/-- Indices and delays of the sleep trace: the `i`-th sleep of a run starting
at `attempt` happens at attempt number `attempt + i` with delay
`jitter(backoff × 2^(attempt+i))`. -/
theorem getJsonGo_sleep_entries (retries : ℕ) (backoff j : ℚ) (rand : ℕ → ℚ) :
    ∀ (outs : List AttemptResult) (attempt i : ℕ)
      (e : ℕ × ℚ), (getJsonGo retries backoff j rand attempt outs).1.get? i = some e →
      e = (attempt + i, jitterDelay (backoff * 2 ^ (attempt + i)) j (rand (attempt + i))) := by
  intro outs
  induction outs with
  | nil => intro attempt i e h; simp [getJsonGo] at h
  | cons o rest ih =>
    intro attempt i e h
    match o with
    | .http status jsonOk =>
      by_cases hok : httpOk status
      · cases jsonOk <;> simp [getJsonGo, hok] at h
      · by_cases hretry : (500 ≤ status ∨ status = 429) ∧ attempt < retries
        · simp only [getJsonGo, if_neg hok, if_pos hretry] at h
          match i with
          | 0 =>
            simp at h
            simp [← h]
          | i' + 1 =>
            simp only [List.get?_cons_succ] at h
            have := ih (attempt + 1) i' e h
            rw [this]
            ring_nf
        · simp [getJsonGo, hok, hretry] at h
    | .net name code =>
      by_cases hretry : isTransientError name code ∧ attempt < retries
      · simp only [getJsonGo, if_pos hretry] at h
        match i with
        | 0 =>
          simp at h
          simp [← h]
        | i' + 1 =>
          simp only [List.get?_cons_succ] at h
          have := ih (attempt + 1) i' e h
          rw [this]
          ring_nf
      · simp [getJsonGo, hretry] at h

/-- C6: the `getJson` retry policy. A run performs at most `retries` sleeps
(hence at most `retries + 1` attempts); every sleep before retry `i` waits
`jitter(backoff_ms × 2^i)` milliseconds, where `jitter(base) = base` for
jitter factor `≤ 0` and `base × (1 + r·j)` with `r ∈ [-1,1]` otherwise; a
retry is taken exactly on HTTP `≥ 500`, HTTP `429`, or an abort /
connection-reset / timed-out network error while the attempt count is below
`retries`; an HTTP 4xx other than 429 is thrown immediately with no sleep, as
is a JSON parse failure of an ok response. -/
theorem getJson_retry_policy (retries : ℕ) (backoff j : ℚ) (rand : ℕ → ℚ)
    (outs : List AttemptResult) :
    ((getJson retries backoff j rand outs).2 ≠ .noAttempt →
      (getJson retries backoff j rand outs).1.length ≤ retries) ∧
    (∀ i e, (getJson retries backoff j rand outs).1.get? i = some e →
      e = (i, jitterDelay (backoff * 2 ^ i) j (rand i))) ∧
    (∀ base r, 0 < j → jitterDelay base j r = base * (1 + r * j)) ∧
    (∀ base r, j ≤ 0 → jitterDelay base j r = base) ∧
    (∀ status jsonOk rest, outs = .http status jsonOk :: rest →
      400 ≤ status → status ≤ 499 → status ≠ 429 →
      getJson retries backoff j rand outs = ([], .httpError status)) ∧
    (∀ status rest, outs = .http status false :: rest → httpOk status = true →
      getJson retries backoff j rand outs = ([], .parseError)) ∧
    (∀ o rest, outs = o :: rest → retryableResult o = true → 0 < retries →
      (getJson retries backoff j rand outs).1.get? 0 =
        some (0, jitterDelay backoff j (rand 0))) := by
  refine ⟨?_, ?_, ?_, ?_, ?_, ?_, ?_⟩
  · intro hno
    rcases getJsonGo_sleeps retries backoff j rand outs 0 with hlen | ⟨hnil, _⟩ | h
    · simpa using hlen
    · simp [getJson, hnil]
    · exact absurd h hno
  · intro i e h
    have := getJsonGo_sleep_entries retries backoff j rand outs 0 i e h
    simpa using this
  · intro base r hj
    simp only [jitterDelay, if_neg (not_le.mpr hj)]
    ring
  · intro base r hj
    simp [jitterDelay, hj]
  · intro status jsonOk rest houts h400 h499 h429
    subst houts
    have hok : httpOk status = false := by
      simp only [httpOk, decide_eq_false_iff_not]
      omega
    have hretry : ¬((500 ≤ status ∨ status = 429) ∧ 0 < retries) := by
      rintro ⟨h5 | h4, _⟩
      · omega
      · exact h429 h4
    simp [getJson, getJsonGo, hok, hretry]
  · intro status rest houts hok
    subst houts
    simp [getJson, getJsonGo, hok]
  · intro o rest houts hr hret
    subst houts
    match o with
    | .http status jsonOk =>
      simp only [retryableResult, Bool.and_eq_true, Bool.not_eq_true',
        Bool.or_eq_true, decide_eq_true_eq] at hr
      have hcond : (500 ≤ status ∨ status = 429) ∧ 0 < retries := by
        refine ⟨?_, hret⟩
        rcases hr.2 with h | h
        · exact Or.inl h
        · exact Or.inr h
      simp [getJson, getJsonGo, hr.1, hcond]
    | .net name code =>
      simp only [retryableResult] at hr
      simp [getJson, getJsonGo, hr, hret]

/-- Witness for `getJson_retry_policy`: retries = 2, one 503 then a
connection reset then success; the run sleeps twice with doubling delays and
succeeds. -/
theorem getJson_retry_policy_witness :
    (getJson 2 250 0 (fun _ => 1)
        [.http 503 true, .net "" "ECONNRESET", .http 200 true]).1.get? 0 =
      some (0, jitterDelay 250 0 1) ∧
    (getJson 2 250 0 (fun _ => 1)
        [.http 503 true, .net "" "ECONNRESET", .http 200 true]).1.length ≤ 2 := by
  constructor
  · exact (getJson_retry_policy 2 250 0 (fun _ => 1) _).2.2.2.2.2.2
      (.http 503 true) _ rfl (by decide) (by decide)
  · exact (getJson_retry_policy 2 250 0 (fun _ => 1) _).1 (by decide)

/-! ## Range runner ordered flush (src/runner/syncRange.ts)

The runner keeps a `ready` map from height to either an assembled block
record or a skip marker, and a `nextToFlush` cursor. `tryFlush` deletes the
cursor entry *before* awaiting `sink.write` and increments the cursor only
after the write resolves; concurrent `tryFlush` invocations therefore find
`ready[nextToFlush]` absent while a write is in flight. The model below is a
small-step system whose interleavings cover the event-loop schedules of the
source: `place` is the `ready.set` of `processHeight` (each height is placed
at most once — a height is re-spawned only from the retry queue, which only
holds heights that were never placed), `flushSkip` is one skip iteration of
the `tryFlush` loop, `writeBegin` / `writeEnd` bracket one awaited
`sink.write`. -/

/-- A value stored in `ready`: an assembled block record or a skip marker
(an object with `__skip: true` or an `error` field). The tag stands for the
payload. -/
inductive RVal where
  | record (tag : ℕ)
  | skip (tag : ℕ)
  deriving DecidableEq

/-- Runner flush state: the `ready` buffer, the `nextToFlush` cursor, the
height currently inside an awaited `sink.write` (if any), the heights handed
to `sink.write` in call order, the heights whose write has resolved in
resolution order, and a ghost log of all `ready.set` calls. -/
structure RunnerState where
  ready : ℕ → Option RVal
  cursor : ℕ
  pending : Option ℕ
  begun : List ℕ
  done : List ℕ
  placed : List (ℕ × RVal)

/-- Pointwise update of the `ready` map. -/
def readyUpdate (f : ℕ → Option RVal) (k : ℕ) (v : Option RVal) : ℕ → Option RVal :=
  fun k' => if k' = k then v else f k'

/-- Initial state of `syncRange`'s flush machinery: `nextToFlush = from`. -/
def initRunner (lo : ℕ) : RunnerState :=
  { ready := fun _ => none, cursor := lo, pending := none, begun := [], done := [], placed := [] }

/-- Effect of `ready.set(h, v)` in `processHeight`. -/
def applyPlace (s : RunnerState) (h : ℕ) (v : RVal) : RunnerState :=
  { s with ready := readyUpdate s.ready h (some v), placed := (h, v) :: s.placed }

/-- Effect of one skip iteration of `tryFlush`: delete the cursor entry and
advance `nextToFlush` without calling `sink.write`. -/
def applyFlushSkip (s : RunnerState) : RunnerState :=
  { s with ready := readyUpdate s.ready s.cursor none, cursor := s.cursor + 1 }

/-- Effect of starting `await sink.write(obj)`: the cursor entry was already
deleted, the cursor is *not* yet advanced. -/
def applyWriteBegin (s : RunnerState) : RunnerState :=
  { s with
    ready := readyUpdate s.ready s.cursor none
    pending := some s.cursor
    begun := s.begun ++ [s.cursor] }

/-- Effect of `sink.write` resolving: record completion and advance the
cursor. -/
def applyWriteEnd (s : RunnerState) (h : ℕ) : RunnerState :=
  { s with pending := none, done := s.done ++ [h], cursor := h + 1 }

/-- Small-step transition relation of the runner's ordered flush over the
range starting at `lo`; heights handled by `processHeight` lie in the range,
so `place` requires `lo ≤ h`. -/
inductive RunnerStep (lo : ℕ) : RunnerState → RunnerState → Prop
  | place (s : RunnerState) (h : ℕ) (v : RVal) :
      lo ≤ h → (∀ w, (h, w) ∉ s.placed) → RunnerStep lo s (applyPlace s h v)
  | flushSkip (s : RunnerState) (t : ℕ) :
      s.ready s.cursor = some (.skip t) → RunnerStep lo s (applyFlushSkip s)
  | writeBegin (s : RunnerState) (t : ℕ) :
      s.ready s.cursor = some (.record t) → RunnerStep lo s (applyWriteBegin s)
  | writeEnd (s : RunnerState) (h : ℕ) :
      s.pending = some h → RunnerStep lo s (applyWriteEnd s h)

/-- Reachability from the initial state. -/
inductive RunnerReachable (lo : ℕ) : RunnerState → Prop
  | init : RunnerReachable lo (initRunner lo)
  | step {s s' : RunnerState} :
      RunnerReachable lo s → RunnerStep lo s s' → RunnerReachable lo s'

/-- Inductive invariant of the runner's flush machinery. -/
structure RunnerInv (lo : ℕ) (s : RunnerState) : Prop where
  pendingCursor : ∀ h, s.pending = some h → h = s.cursor ∧ s.ready s.cursor = none
  readyPlaced : ∀ k v, s.ready k = some v → (k, v) ∈ s.placed ∧ s.cursor ≤ k
  begunChain : List.Chain' (· < ·) s.begun
  begunEq : s.begun = s.done ++ s.pending.toList
  doneLt : ∀ h ∈ s.done, h < s.cursor
  begunRecord : ∀ h ∈ s.begun, ∃ t, (h, RVal.record t) ∈ s.placed
  placedNodup : (s.placed.map Prod.fst).Nodup
  cursorPlaced : ∀ k, lo ≤ k → k < s.cursor → ∃ w, (k, w) ∈ s.placed
  cursorLo : lo ≤ s.cursor

/-- In an association list with nodup keys, a key determines its value. -/
theorem nodupKeys_val_eq {l : List (ℕ × RVal)} (hn : (l.map Prod.fst).Nodup)
    {a : ℕ} {b c : RVal} (hb : (a, b) ∈ l) (hc : (a, c) ∈ l) : b = c := by
  induction l with
  | nil => simp at hb
  | cons p rest ih =>
    simp only [List.map_cons, List.nodup_cons, List.mem_map] at hn
    rcases List.mem_cons.mp hb with hb0 | hbr <;>
      rcases List.mem_cons.mp hc with hc0 | hcr
    · rw [← hb0] at hc0; exact (Prod.mk.injEq _ _ _ _ ▸ hc0.symm).2
    · exact absurd ⟨(a, c), hcr, by rw [← hb0]⟩ hn.1
    · exact absurd ⟨(a, b), hbr, by rw [← hc0]⟩ hn.1
    · exact ih hn.2 hbr hcr

/-- Elements of `getLast?` are members. -/
theorem mem_of_getLast?' {α : Type _} {l : List α} {a : α} (h : l.getLast? = some a) :
    a ∈ l := by
  induction l with
  | nil => simp at h
  | cons x rest ih =>
    cases rest with
    | nil => simp_all
    | cons y t =>
      rw [List.getLast?_cons_cons] at h
      exact List.mem_cons_of_mem _ (ih h)

/-- The invariant holds initially. -/
theorem runnerInv_init (lo : ℕ) : RunnerInv lo (initRunner lo) := by
  refine ⟨?_, ?_, ?_, ?_, ?_, ?_, ?_, ?_, ?_⟩ <;> simp [initRunner]

/-- The invariant is preserved by every step. -/
theorem runnerInv_step {lo : ℕ} {s s' : RunnerState} (inv : RunnerInv lo s)
    (hstep : RunnerStep lo s s') : RunnerInv lo s' := by
  cases hstep with
  | place h v hlo hfresh =>
    have hne : ∀ p, s.pending = some p → h ≠ s.cursor := by
      intro p hp hcontra
      obtain ⟨hpc, _⟩ := inv.pendingCursor p hp
      have hpb : p ∈ s.begun := by
        rw [inv.begunEq, hp]; simp
      obtain ⟨t, hmem⟩ := inv.begunRecord p hpb
      rw [hcontra, ← hpc] at hfresh
      exact hfresh _ hmem
    refine ⟨?_, ?_, ?_, ?_, ?_, ?_, ?_, ?_, ?_⟩
    · intro p hp
      obtain ⟨hpc, hrn⟩ := inv.pendingCursor p hp
      refine ⟨hpc, ?_⟩
      simp only [applyPlace, readyUpdate]
      rw [if_neg (fun hc => hne p hp hc.symm)]
      exact hrn
    · intro k w hk
      simp only [applyPlace, readyUpdate] at hk ⊢
      by_cases hkh : k = h
      · subst hkh
        rw [if_pos rfl] at hk
        injection hk with hvw
        refine ⟨by rw [← hvw]; exact List.mem_cons_self _ _, ?_⟩
        by_contra hlt
        push_neg at hlt
        obtain ⟨w', hw'⟩ := inv.cursorPlaced k hlo hlt
        exact hfresh w' hw'
      · rw [if_neg hkh] at hk
        obtain ⟨hm, hc⟩ := inv.readyPlaced k w hk
        exact ⟨List.mem_cons_of_mem _ hm, hc⟩
    · exact inv.begunChain
    · exact inv.begunEq
    · exact inv.doneLt
    · intro x hx
      obtain ⟨t, hm⟩ := inv.begunRecord x hx
      exact ⟨t, List.mem_cons_of_mem _ hm⟩
    · simp only [applyPlace, List.map_cons, List.nodup_cons, List.mem_map]
      refine ⟨?_, inv.placedNodup⟩
      rintro ⟨⟨a, w⟩, hmem, hfst⟩
      exact hfresh w (by simpa [show a = h from hfst] using hmem)
    · intro k hklo hk
      obtain ⟨w, hw⟩ := inv.cursorPlaced k hklo hk
      exact ⟨w, List.mem_cons_of_mem _ hw⟩
    · exact inv.cursorLo
  | flushSkip t hready =>
    have hpend : s.pending = none := by
      cases hp : s.pending with
      | none => rfl
      | some p =>
        obtain ⟨_, hrn⟩ := inv.pendingCursor p hp
        rw [hrn] at hready
        cases hready
    refine ⟨?_, ?_, ?_, ?_, ?_, ?_, ?_, ?_, ?_⟩
    · intro p hp
      simp only [applyFlushSkip] at hp
      rw [hpend] at hp
      cases hp
    · intro k w hk
      simp only [applyFlushSkip, readyUpdate] at hk
      by_cases hkc : k = s.cursor
      · rw [if_pos hkc] at hk; cases hk
      · rw [if_neg hkc] at hk
        obtain ⟨hm, hc⟩ := inv.readyPlaced k w hk
        exact ⟨hm, by simp only [applyFlushSkip]; omega⟩
    · exact inv.begunChain
    · simpa only [applyFlushSkip] using inv.begunEq
    · intro x hx
      have := inv.doneLt x hx
      simp only [applyFlushSkip]
      omega
    · exact inv.begunRecord
    · exact inv.placedNodup
    · intro k hklo hk
      simp only [applyFlushSkip] at hk
      by_cases hkc : k = s.cursor
      · exact ⟨RVal.skip t, by rw [hkc]; exact (inv.readyPlaced _ _ hready).1⟩
      · exact inv.cursorPlaced k hklo (by omega)
    · have := inv.cursorLo
      simp only [applyFlushSkip]
      omega
  | writeBegin t hready =>
    have hpend : s.pending = none := by
      cases hp : s.pending with
      | none => rfl
      | some p =>
        obtain ⟨_, hrn⟩ := inv.pendingCursor p hp
        rw [hrn] at hready
        cases hready
    have hbegun : s.begun = s.done := by
      rw [inv.begunEq, hpend]
      simp
    refine ⟨?_, ?_, ?_, ?_, ?_, ?_, ?_, ?_, ?_⟩
    · intro p hp
      simp only [applyWriteBegin] at hp ⊢
      injection hp with hpc
      refine ⟨hpc.symm, ?_⟩
      simp [readyUpdate]
    · intro k w hk
      simp only [applyWriteBegin, readyUpdate] at hk
      by_cases hkc : k = s.cursor
      · rw [if_pos hkc] at hk; cases hk
      · rw [if_neg hkc] at hk
        exact ⟨(inv.readyPlaced k w hk).1, (inv.readyPlaced k w hk).2⟩
    · simp only [applyWriteBegin]
      rw [List.chain'_append]
      refine ⟨inv.begunChain, List.chain'_singleton _, ?_⟩
      intro x hx y hy
      simp only [List.head?_cons, Option.mem_def, Option.some.injEq] at hy
      subst hy
      have hxm : x ∈ s.begun := mem_of_getLast?' hx
      rw [hbegun] at hxm
      exact inv.doneLt x hxm
    · simp only [applyWriteBegin, Option.toList_some]
      rw [hbegun]
    · intro x hx
      exact inv.doneLt x hx
    · intro x hx
      simp only [applyWriteBegin] at hx
      rcases List.mem_append.mp hx with hx1 | hx2
      · exact inv.begunRecord x hx1
      · simp only [List.mem_singleton] at hx2
        subst hx2
        exact ⟨t, (inv.readyPlaced _ _ hready).1⟩
    · exact inv.placedNodup
    · exact inv.cursorPlaced
    · exact inv.cursorLo
  | writeEnd h hp =>
    obtain ⟨hpc, hrn⟩ := inv.pendingCursor h hp
    refine ⟨?_, ?_, ?_, ?_, ?_, ?_, ?_, ?_, ?_⟩
    · intro p hcontra
      simp only [applyWriteEnd] at hcontra
      cases hcontra
    · intro k w hk
      simp only [applyWriteEnd] at hk ⊢
      obtain ⟨hm, hc⟩ := inv.readyPlaced k w hk
      refine ⟨hm, ?_⟩
      have : k ≠ s.cursor := by
        intro hkc
        rw [← hkc] at hrn
        rw [hrn] at hk
        cases hk
      omega
    · exact inv.begunChain
    · simp only [applyWriteEnd, Option.toList_none, List.append_nil]
      rw [inv.begunEq, hp]
      simp
    · intro x hx
      simp only [applyWriteEnd] at hx ⊢
      rcases List.mem_append.mp hx with hx1 | hx2
      · have := inv.doneLt x hx1
        omega
      · simp only [List.mem_singleton] at hx2
        omega
    · simpa only [applyWriteEnd] using inv.begunRecord
    · exact inv.placedNodup
    · intro k hklo hk
      simp only [applyWriteEnd] at hk
      by_cases hkc : k = s.cursor
      · have hpb : h ∈ s.begun := by
          rw [inv.begunEq, hp]; simp
        obtain ⟨t, hm⟩ := inv.begunRecord h hpb
        exact ⟨RVal.record t, by rw [hkc, ← hpc]; exact hm⟩
      · exact inv.cursorPlaced k hklo (by omega)
    · have := inv.cursorLo
      simp only [applyWriteEnd]
      omega

/-- Every reachable state satisfies the invariant. -/
theorem runnerInv_reachable {lo : ℕ} {s : RunnerState} (h : RunnerReachable lo s) :
    RunnerInv lo s := by
  induction h with
  | init => exact runnerInv_init lo
  | step _ hstep ih => exact runnerInv_step ih hstep

/-- A skip marker at the cursor enables a step that advances the cursor
without beginning any `sink.write`. -/
theorem skipStep_advances (lo : ℕ) (s : RunnerState) (t : ℕ)
    (h : s.ready s.cursor = some (RVal.skip t)) :
    RunnerStep lo s (applyFlushSkip s) ∧ (applyFlushSkip s).cursor = s.cursor + 1 ∧
      (applyFlushSkip s).begun = s.begun ∧ (applyFlushSkip s).done = s.done :=
  ⟨RunnerStep.flushSkip s t h, rfl, rfl, rfl⟩

/-- A placed skip marker is never handed to `sink.write`. -/
theorem skip_never_written {lo : ℕ} {s : RunnerState} (hr : RunnerReachable lo s)
    {ht t : ℕ} (hmem : (ht, RVal.skip t) ∈ s.placed) : ht ∉ s.begun := by
  intro hb
  obtain ⟨t', hrec⟩ := (runnerInv_reachable hr).begunRecord ht hb
  cases nodupKeys_val_eq (runnerInv_reachable hr).placedNodup hrec hmem

/-- C3: in every reachable runner state the sequence of heights handed to
`sink.write` is strictly increasing; every begun write except possibly the
single in-flight one has already completed (so for `h₁ < h₂` the write of
`h₁` completes before the write of `h₂` begins); a height placed as a skip
marker is never written; and a skip marker at the cursor is consumed by a
step that advances `next_to_flush` past it without any write. -/
theorem runner_writes_ordered (lo : ℕ) (s : RunnerState)
    (hreach : RunnerReachable lo s) :
    List.Chain' (· < ·) s.begun ∧
    s.begun = s.done ++ s.pending.toList ∧
    (∀ h1 h2, h1 ∈ s.begun → h2 ∈ s.begun → h1 < h2 → h1 ∈ s.done) ∧
    (∀ ht t, (ht, RVal.skip t) ∈ s.placed → ht ∉ s.begun) ∧
    (∀ t, s.ready s.cursor = some (RVal.skip t) →
      ∃ s', RunnerStep lo s s' ∧ s'.cursor = s.cursor + 1 ∧ s'.begun = s.begun ∧
        s'.done = s.done) := by
  have inv := runnerInv_reachable hreach
  refine ⟨inv.begunChain, inv.begunEq, ?_, ?_, ?_⟩
  · intro h1 h2 h1m h2m hlt
    rw [inv.begunEq] at h1m
    rcases List.mem_append.mp h1m with hd | hpnd
    · exact hd
    · exfalso
      cases hp : s.pending with
      | none => rw [hp] at hpnd; cases hpnd
      | some p =>
        rw [hp] at hpnd
        simp only [Option.toList_some, List.mem_singleton] at hpnd
        obtain ⟨hpc, _⟩ := inv.pendingCursor p hp
        rw [inv.begunEq, hp] at h2m
        rcases List.mem_append.mp h2m with hd2 | hp2
        · have := inv.doneLt h2 hd2
          omega
        · simp only [Option.toList_some, List.mem_singleton] at hp2
          omega
  · intro ht t hmem
    exact skip_never_written hreach hmem
  · intro t h
    exact ⟨applyFlushSkip s, skipStep_advances lo s t h⟩

/-- Demo trace for the runner: place height 5 as a record, write it, place
height 6 as a skip marker, skip past it. -/
def runnerDemo : RunnerState :=
  applyFlushSkip (applyPlace
    (applyWriteEnd (applyWriteBegin (applyPlace (initRunner 5) 5 (RVal.record 0))) 5)
    6 (RVal.skip 1))

/-- The demo trace is reachable. -/
theorem runnerDemo_reachable : RunnerReachable 5 runnerDemo :=
  RunnerReachable.step
    (RunnerReachable.step
      (RunnerReachable.step
        (RunnerReachable.step
          (RunnerReachable.step RunnerReachable.init
            (RunnerStep.place _ 5 (RVal.record 0) (by decide)
              (by intro w hw; simp [initRunner] at hw)))
          (RunnerStep.writeBegin _ 0 rfl))
        (RunnerStep.writeEnd _ 5 rfl))
      (RunnerStep.place _ 6 (RVal.skip 1) (by decide)
        (by
          intro w hw
          simp [applyWriteEnd, applyWriteBegin, applyPlace, initRunner] at hw)))
    (RunnerStep.flushSkip _ 1 rfl)

/-- Witness for `runner_writes_ordered` on the demo trace. -/
theorem runner_writes_ordered_witness :
    List.Chain' (· < ·) runnerDemo.begun ∧
    runnerDemo.begun = runnerDemo.done ++ runnerDemo.pending.toList ∧
    (∀ h1 h2, h1 ∈ runnerDemo.begun → h2 ∈ runnerDemo.begun → h1 < h2 →
      h1 ∈ runnerDemo.done) ∧
    (∀ ht t, (ht, RVal.skip t) ∈ runnerDemo.placed → ht ∉ runnerDemo.begun) ∧
    (∀ t, runnerDemo.ready runnerDemo.cursor = some (RVal.skip t) →
      ∃ s', RunnerStep 5 runnerDemo s' ∧ s'.cursor = runnerDemo.cursor + 1 ∧
        s'.begun = runnerDemo.begun ∧ s'.done = runnerDemo.done) :=
  runner_writes_ordered 5 runnerDemo runnerDemo_reachable

/-! ## Per-height retry budget (src/runner/syncRange.ts lines 196–208) -/

/-- What the catch branch of `processHeight` does with a failed height. -/
inductive FailAction where
  | requeue
  | skipMark
  deriving DecidableEq

/-- One failure of `processHeight` for a height whose attempt counter is
`attempts`: increment the counter; requeue while the new value is
`≤ maxBlockRetries`, otherwise place a skip marker. -/
def onFailure (maxRetries attempts : ℕ) : ℕ × FailAction :=
  (attempts + 1, if attempts + 1 ≤ maxRetries then .requeue else .skipMark)

/-- Attempt counter after `k` failures of the same height (`attempts.get(h)
?? 0` starts at zero). -/
def attemptsAfter (maxRetries : ℕ) : ℕ → ℕ
  | 0 => 0
  | k + 1 => (onFailure maxRetries (attemptsAfter maxRetries k)).1

/-- The attempt counter counts failures. -/
theorem attemptsAfter_eq (maxRetries : ℕ) : ∀ k, attemptsAfter maxRetries k = k := by
  intro k
  induction k with
  | zero => rfl
  | succ k ih => simp [attemptsAfter, onFailure, ih]

/-- C7: each failure increments `attempts[h]`; the `k`-th failure requeues
the height exactly while `k ≤ max_block_retries`; the
`(max_block_retries + 1)`-th failure places a skip marker instead; and a skip
marker at the flush cursor is consumed by a runner step that advances
`next_to_flush` past the height without handing anything to the sink — a
skipped height is never written. -/
theorem processHeight_retry_policy (maxRetries k : ℕ) :
    attemptsAfter maxRetries k = k ∧
    (∀ a, (onFailure maxRetries a).1 = a + 1) ∧
    (1 ≤ k → k ≤ maxRetries →
      (onFailure maxRetries (attemptsAfter maxRetries (k - 1))).2 = FailAction.requeue) ∧
    (maxRetries < k →
      (onFailure maxRetries (attemptsAfter maxRetries (k - 1))).2 = FailAction.skipMark) ∧
    ((onFailure maxRetries (attemptsAfter maxRetries maxRetries)).2 = FailAction.skipMark) ∧
    (∀ lo s t, s.ready s.cursor = some (RVal.skip t) →
      RunnerStep lo s (applyFlushSkip s) ∧ (applyFlushSkip s).cursor = s.cursor + 1 ∧
        (applyFlushSkip s).begun = s.begun) ∧
    (∀ lo s ht t, RunnerReachable lo s → (ht, RVal.skip t) ∈ s.placed →
      ht ∉ s.begun) := by
  refine ⟨attemptsAfter_eq maxRetries k, fun a => rfl, ?_, ?_, ?_, ?_, ?_⟩
  · intro h1 hk
    rw [attemptsAfter_eq]
    simp only [onFailure]
    rw [if_pos (by omega)]
  · intro hk
    rw [attemptsAfter_eq]
    simp only [onFailure]
    rw [if_neg (by omega)]
  · rw [attemptsAfter_eq]
    simp only [onFailure]
    rw [if_neg (by omega)]
  · intro lo s t h
    obtain ⟨h1, h2, h3, _⟩ := skipStep_advances lo s t h
    exact ⟨h1, h2, h3⟩
  · intro lo s ht t hr hm
    exact skip_never_written hr hm

/-- Witness for `processHeight_retry_policy` at `max_block_retries = 3`:
the second failure requeues, the fourth places a skip marker. -/
theorem processHeight_retry_policy_witness :
    attemptsAfter 3 2 = 2 ∧
    (onFailure 3 (attemptsAfter 3 1)).2 = FailAction.requeue ∧
    (onFailure 3 (attemptsAfter 3 3)).2 = FailAction.skipMark :=
  ⟨(processHeight_retry_policy 3 2).1,
    (processHeight_retry_policy 3 2).2.2.1 (by decide) (by decide),
    (processHeight_retry_policy 3 2).2.2.2.2.1⟩

/-! ## Dynamic JS values

The sink and assembler operate on dynamic JSON-like values. `Js` models
them: JS numbers are `num : ℚ` plus an explicit `nan` (non-finite values are
collapsed into `nan`; this pipeline never produces infinities), and `date x`
models `new Date(x)`. -/

inductive Js where
  | undef
  | jnull
  | jbool (b : Bool)
  | num (q : ℚ)
  | nan
  | str (s : String)
  | arr (xs : List Js)
  | obj (fields : List (String × Js))
  | date (x : Js)

/-- Property access `o?.k` (and `o.k` where the source guarantees `o` is an
object): the first binding of `k`, `undefined` otherwise. -/
def Js.get : Js → String → Js
  | .obj fs, k => ((fs.find? (fun p => p.1 = k)).map Prod.snd).getD .undef
  | _, _ => (.undef)

/-- Array index access `x?.[i]`. -/
def Js.idx : Js → ℕ → Js
  | .arr xs, i => xs.getD i .undef
  | _, _ => (.undef)

/-- JS truthiness. -/
def Js.truthy : Js → Bool
  | .undef => false
  | .jnull => false
  | .jbool b => b
  | .num q => decide (q ≠ 0)
  | .nan => false
  | .str s => decide (s ≠ "")
  | .arr _ => true
  | .obj _ => true
  | .date _ => true

/-- The nullish-coalescing operator `a ?? b`. -/
def jsNullish (a b : Js) : Js :=
  match a with
  | .undef => b
  | .jnull => b
  | _ => a

/-- `Array.isArray`. -/
def Js.isArr : Js → Bool
  | .arr _ => true
  | _ => false

/-- `normArray` (src/sink/pg/parsing.ts): the array itself or `[]`. -/
def normArray (x : Js) : List Js :=
  match x with
  | .arr xs => xs
  | _ => []

/-- Decimal numeral parsing of JS `Number(string)`: optional surrounding
whitespace, optional sign, digits with an optional fraction. This covers
every numeral this pipeline feeds to `Number`; other JS numeral forms are
not produced by it. An unparsable string is `NaN`. -/
def jsStringToNumber (s : String) : Js :=
  let isWs := fun c => c = ' ' ∨ c = '\t' ∨ c = '\n' ∨ c = '\r'
  let t := (s.data.dropWhile isWs).reverse.dropWhile isWs |>.reverse
  if t.isEmpty then .num 0
  else
    let neg := t.head? = some '-'
    let t2 := if t.head? = some '-' ∨ t.head? = some '+' then t.tail else t
    let ip := t2.takeWhile Char.isDigit
    let rest := t2.dropWhile Char.isDigit
    let ipVal : ℕ := ip.foldl (fun acc c => acc * 10 + (c.toNat - 48)) 0
    match rest with
    | [] =>
      if ip.isEmpty then .nan
      else .num (if neg then -(ipVal : ℚ) else (ipVal : ℚ))
    | '.' :: fp =>
      if fp.all Char.isDigit ∧ ¬(ip.isEmpty ∧ fp.isEmpty) then
        let fpVal : ℕ := fp.foldl (fun acc c => acc * 10 + (c.toNat - 48)) 0
        let mag : ℚ := (ipVal : ℚ) + (fpVal : ℚ) / (10 : ℚ) ^ fp.length
        .num (if neg then -mag else mag)
      else .nan
    | _ => .nan

/-- JS `Number(x)` coercion. Arrays, plain objects and dates are collapsed
to `NaN`; the source only applies `Number` to numbers, strings, `null` and
`undefined`. -/
def jsToNumber : Js → Js
  | .num q => .num q
  | .nan => .nan
  | .jnull => .num 0
  | .undef => .nan
  | .jbool b => .num (if b then 1 else 0)
  | .str s => jsStringToNumber s
  | _ => .nan

/-- JS `String(x)` for the primitive values this pipeline stringifies.
Integral numbers render in decimal; composite values are not stringified by
the modelled code paths. -/
def jsToString : Js → String
  | .str s => s
  | .num q => if q.den = 1 then toString q.num else toString q
  | .nan => "NaN"
  | .jbool b => if b then "true" else "false"
  | .jnull => "null"
  | .undef => "undefined"
  | _ => "[object]"

/-- `{ ...o, k: v }`: replace the binding of `k` in place, or append it. -/
def objUpsert (o : Js) (k : String) (v : Js) : Js :=
  match o with
  | .obj fs =>
    if fs.any (fun p => p.1 = k) then
      .obj (fs.map (fun p => if p.1 = k then (k, v) else p))
    else .obj (fs ++ [(k, v)])
  | _ => .obj [(k, v)]

/-! ## Sink parsing helpers (src/sink/pg/parsing.ts) -/

/-- A normalized `{ key, value }` attribute pair (`value` is
`string | null`). -/
structure AttrPair where
  key : String
  value : Option String
  deriving DecidableEq

/-- `pickMessages`: first array among `tx.msgs`, `tx.messages`,
`tx.body.messages`, `tx.decoded.body.messages`. -/
def pickMessages (tx : Js) : List Js :=
  if (tx.get "msgs").isArr then normArray (tx.get "msgs")
  else if (tx.get "messages").isArr then normArray (tx.get "messages")
  else if ((tx.get "body").get "messages").isArr then normArray ((tx.get "body").get "messages")
  else if (((tx.get "decoded").get "body").get "messages").isArr then
    normArray (((tx.get "decoded").get "body").get "messages")
  else []

/-- Event mapping used inside `pickLogs`:
`{ type: String(ev?.type ?? 'unknown'), attributes: ev?.attributes ?? [] }`. -/
def pickLogsEvent (ev : Js) : Js :=
  .obj [("type", .str (jsToString (jsNullish (ev.get "type") (.str "unknown")))),
    ("attributes", jsNullish (ev.get "attributes") (.arr []))]

/-- `pickLogs`: prefer `tx.logsNormalized`; else normalize
`tx.tx_response.logs`; else wrap a flat `eventsNormalized`/`events` array as
a single entry with `msg_index = -1`. -/
def pickLogs (tx : Js) : List Js :=
  if (tx.get "logsNormalized").isArr then normArray (tx.get "logsNormalized")
  else if ((tx.get "tx_response").get "logs").isArr then
    (normArray ((tx.get "tx_response").get "logs")).map (fun l =>
      .obj [("msg_index", jsToNumber (jsNullish (l.get "msg_index") (.num (-1)))),
        ("events", .arr ((normArray (l.get "events")).map pickLogsEvent))])
  else if (tx.get "eventsNormalized").isArr then
    [.obj [("msg_index", .num (-1)),
      ("events", .arr ((normArray (tx.get "eventsNormalized")).map pickLogsEvent))]]
  else if (tx.get "events").isArr then
    [.obj [("msg_index", .num (-1)),
      ("events", .arr ((normArray (tx.get "events")).map pickLogsEvent))]]
  else []

/-- `attrsToPairs`: an array of `{key,value}` objects or a plain object map
becomes uniform `{ key, value }` pairs, with
`value = a?.value != null ? String(a.value) : null`. -/
def attrsToPairs (attrs : Js) : List AttrPair :=
  match attrs with
  | .arr xs =>
    xs.map (fun a =>
      ⟨jsToString (jsNullish (a.get "key") (.str "")),
        match a.get "value" with
        | .undef => none
        | .jnull => none
        | v => some (jsToString v)⟩)
  | .obj fs =>
    fs.map (fun p =>
      ⟨p.1,
        match p.2 with
        | .undef => none
        | .jnull => none
        | v => some (jsToString v)⟩)
  | _ => []

/-- `toNum`: `null` for nullish input or a non-finite conversion, the finite
number otherwise. -/
def toNum (x : Js) : Js :=
  match x with
  | .jnull => .jnull
  | .undef => .jnull
  | v =>
    match jsToNumber v with
    | .num q => .num q
    | _ => .jnull

/-- Whether a value is `undefined`. -/
def Js.isUndef : Js → Bool
  | .undef => true
  | _ => false

/-- `buildFeeFromDecodedFee`: copy the known fee fields that are present;
`null` when the fee is falsy or nothing was copied. -/
def buildFeeFromDecodedFee (fee : Js) : Js :=
  if ¬fee.truthy then .jnull
  else
    let fields := [("amount", fee.get "amount"), ("gas_limit", fee.get "gas_limit"),
      ("payer", fee.get "payer"), ("granter", fee.get "granter")]
    let out := fields.filter (fun p => !p.2.isUndef)
    if out.isEmpty then .jnull else .obj out

/-- Candidate signer fields scanned by `collectSignersFromMessages`. -/
def signerCandidates (m : Js) : List Js :=
  [m.get "signer", m.get "from_address", m.get "delegator_address",
    m.get "validator_address", m.get "authority", m.get "admin", m.get "granter",
    m.get "grantee", m.get "sender", m.get "creator"]

/-- `collectSignersFromMessages`: the insertion-ordered set of string
candidates of length `≥ 10`; `null` when empty. -/
def collectSignersFromMessages (msgs : List Js) : Js :=
  let all := msgs.flatMap (fun m =>
    (signerCandidates m).filterMap (fun c =>
      match c with
      | .str s => if 10 ≤ s.length then some s else none
      | _ => none))
  let uniq := all.foldl (fun acc s => if s ∈ acc then acc else acc ++ [s]) []
  if uniq.isEmpty then .jnull else .arr (uniq.map .str)

/-- A parsed coin. -/
structure Coin where
  amount : String
  denom : String
  deriving DecidableEq

/-- Character class `[\w/:-]` of the coin denom tail. -/
def isDenomTailChar (c : Char) : Bool :=
  c.isAlphanum ∨ c = '_' ∨ c = '/' ∨ c = ':' ∨ c = '-'

/-- `parseCoin`: parse `"<digits><denom>"` where the denom starts with a
letter or `/` and continues with `[\w/:-]`; `null` for falsy input or a
non-match (the regex `^(\d+)([a-zA-Z/][\w/:-]*)$`). -/
def parseCoin (amt : Option String) : Option Coin :=
  match amt with
  | none => none
  | some a =>
    if a = "" then none
    else
      let ds := a.data.takeWhile Char.isDigit
      let rest := a.data.dropWhile Char.isDigit
      match rest with
      | c :: cs =>
        if ¬ds.isEmpty ∧ (c.isAlpha ∨ c = '/') ∧ cs.all isDenomTailChar then
          some ⟨String.mk ds, String.mk rest⟩
        else none
      | [] => none

/-- `findAttr`: value of the first pair with the given key, `null`
otherwise. -/
def findAttr (attrs : List AttrPair) (key : String) : Option String :=
  match attrs.find? (fun a => a.key = key) with
  | some a => a.value
  | none => none

/-! ## Row extraction (`PostgresSink.extractRows`, src/sink/index.ts
lines 411–693) -/

/-- Truthiness of a `string | null` JS variable. -/
def optStrTruthy : Option String → Bool
  | some s => decide (s ≠ "")
  | none => false

/-- Render a `string | null` variable with a trailing `?? null`. -/
def optStrJs : Option String → Js
  | some s => .str s
  | none => .jnull

/-- JS substring test `s.includes(sub)`. -/
def strIncludes (s sub : String) : Bool :=
  (List.range (s.data.length + 1)).any (fun i => sub.data.isPrefixOf (s.data.drop i))

/-- `includes` on a dynamic value that the source guarantees is a string
(`mm?.['@type'] ?? mm?.type_url ?? ''`). -/
def jsStrIncludes (v : Js) (sub : String) : Bool :=
  match v with
  | .str s => strIncludes s sub
  | _ => false

/-- Whether a dynamic value is a string (`typeof x === 'string'`). -/
def Js.isStr : Js → Bool
  | .str _ => true
  | _ => false

/-- The string payload of a value known to be a string. -/
def Js.asStr : Js → String
  | .str s => s
  | _ => ""

/-- JS array indexing `msgs[msg_index]` with a dynamic number index:
`undefined` unless the index is a whole number inside the array. -/
def msgIdxLookup (msgs : List Js) (mi : Js) : Js :=
  match mi with
  | .num q => if q.den = 1 ∧ 0 ≤ q.num then msgs.getD q.num.toNat .undef else .undef
  | _ => (.undef)

/-- Guard `msg_index >= 0 && msg_index < msgs.length` on a dynamic number
(`false` on `NaN`). -/
def msgIdxInRange (mi : Js) (len : ℕ) : Bool :=
  match mi with
  | .num q => 0 ≤ q ∧ q < (len : ℚ)
  | _ => false

/-- The `type_url`-ish marker `mm?.['@type'] ?? mm?.type_url ?? ''`. -/
def msgTypeOf (m : Js) : Js :=
  jsNullish (m.get "@type") (jsNullish (m.get "type_url") (.str ""))

/-- Attribute pairs rendered back to a JS value (rows store `attributes`
as the pair array). -/
def attrPairsJs (pairs : List AttrPair) : Js :=
  .arr (pairs.map (fun p => .obj [("key", .str p.key), ("value", optStrJs p.value)]))

/-- Transfer rows of one `transfer` event (src/sink/index.ts lines
527–543). -/
def transferRowsOf (height tx_hash msg_index : Js) (attrsPairs : List AttrPair) :
    List Js :=
  let sender := findAttr attrsPairs "sender"
  let recipient := findAttr attrsPairs "recipient"
  let amountStr := findAttr attrsPairs "amount"
  let coin := parseCoin amountStr
  match sender, recipient, coin with
  | some snd, some rcp, some c =>
    if snd ≠ "" ∧ rcp ≠ "" then
      [.obj [("tx_hash", tx_hash), ("msg_index", msg_index), ("from_addr", .str snd),
        ("to_addr", .str rcp), ("denom", .str c.denom), ("amount", .str c.amount),
        ("height", height)]]
    else []
  | _, _, _ => []

/-- Staking-message fallback of the delegation-event extraction
(src/sink/index.ts lines 563–593), producing the final
`(delegator, validator, srcVal, dstVal, coin)`. -/
def stakeDelegFallback (delegator0 validator0 srcVal0 dstVal0 : Option String)
    (coin0 : Option Coin) (msgs : List Js) (msg_index : Js) :
    Option String × Option String × Option String × Option String × Option Coin :=
  if (¬optStrTruthy delegator0 ∨ ¬optStrTruthy srcVal0 ∨ ¬optStrTruthy dstVal0 ∨
      coin0.isNone) ∧ msgIdxInRange msg_index msgs.length then
    let mm := jsNullish (msgIdxLookup msgs msg_index) (.obj [])
    let delegator1 :=
      if ¬optStrTruthy delegator0 ∧ (mm.get "delegator_address").isStr then
        some (mm.get "delegator_address").asStr
      else delegator0
    let mType := msgTypeOf mm
    let (validator1, srcVal1, dstVal1) :=
      if jsStrIncludes mType "MsgBeginRedelegate" then
        (validator0,
          if ¬optStrTruthy srcVal0 ∧ (mm.get "source_validator_address").isStr then
            some (mm.get "source_validator_address").asStr
          else srcVal0,
          if ¬optStrTruthy dstVal0 ∧ (mm.get "destination_validator_address").isStr then
            some (mm.get "destination_validator_address").asStr
          else dstVal0)
      else if jsStrIncludes mType "MsgDelegate" ∨ jsStrIncludes mType "MsgUndelegate" then
        let v1 :=
          if ¬optStrTruthy validator0 ∧ (mm.get "validator_address").isStr then
            some (mm.get "validator_address").asStr
          else validator0
        (v1, srcVal0, if ¬optStrTruthy dstVal0 then v1.or dstVal0 else dstVal0)
      else (validator0, srcVal0, dstVal0)
    let coin1 :=
      if coin0.isNone then
        match mm.get "amount" with
        | .arr (first :: _) =>
          match first.get "amount", first.get "denom" with
          | .str a, .str d => some (⟨a, d⟩ : Coin)
          | _, _ => none
        | .arr [] => none
        | .obj fs =>
          match (Js.obj fs).get "amount", (Js.obj fs).get "denom" with
          | .str a, .str d => some (⟨a, d⟩ : Coin)
          | _, _ => none
        | _ => none
      else coin0
    (delegator1, validator1, srcVal1, dstVal1, coin1)
  else (delegator0, validator0, srcVal0, dstVal0, coin0)

/-- Stake delegation row of one delegation-family event (src/sink/index.ts
lines 545–609). -/
def stakeDelegRowOf (height tx_hash msg_index : Js) (event_type : String)
    (attrsPairs : List AttrPair) (msgs : List Js) (firstSigner : Js) : Js :=
  let delegator0 := findAttr attrsPairs "delegator"
  let validator0 := findAttr attrsPairs "validator"
  let srcVal0 := findAttr attrsPairs "source_validator"
  let dstVal0 := findAttr attrsPairs "destination_validator"
  let amountStr := (findAttr attrsPairs "amount").or (findAttr attrsPairs "completion_amount")
  let coin0 := parseCoin (some (amountStr.getD ""))
  let (delegator, validator, srcVal, dstVal, coin) :=
    stakeDelegFallback delegator0 validator0 srcVal0 dstVal0 coin0 msgs msg_index
  let completionTime := findAttr attrsPairs "completion_time"
  .obj [("height", height), ("tx_hash", tx_hash), ("msg_index", msg_index),
    ("event_type", .str event_type),
    ("delegator_address",
      match delegator with
      | some d => .str d
      | none => jsNullish firstSigner .jnull),
    ("validator_src", optStrJs srcVal),
    ("validator_dst",
      match dstVal with
      | some d => .str d
      | none => optStrJs validator),
    ("denom",
      match coin with
      | some c => .str c.denom
      | none => .jnull),
    ("amount",
      match coin with
      | some c => .str c.amount
      | none => .jnull),
    ("completion_time",
      match completionTime with
      | some c => if c ≠ "" then .date (.str c) else .jnull
      | none => .jnull)]

/-- Stake distribution row of one withdraw-family event (src/sink/index.ts
lines 611–635). -/
def stakeDistrRowOf (height tx_hash msg_index : Js) (event_type : String)
    (attrsPairs : List AttrPair) : Js :=
  let delegator := findAttr attrsPairs "delegator"
  let validator := (findAttr attrsPairs "validator").or (findAttr attrsPairs "validator_address")
  let withdrawAddr :=
    (findAttr attrsPairs "withdraw_address").or (findAttr attrsPairs "withdraw_address_old")
  let amountStr := findAttr attrsPairs "amount"
  let coin := parseCoin (some (amountStr.getD ""))
  .obj [("height", height), ("tx_hash", tx_hash), ("msg_index", msg_index),
    ("event_type", .str event_type), ("delegator_address", optStrJs delegator),
    ("validator_address", optStrJs validator),
    ("denom",
      match coin with
      | some c => .str c.denom
      | none => .jnull),
    ("amount",
      match coin with
      | some c => .str c.amount
      | none => .jnull),
    ("withdraw_address", optStrJs withdrawAddr)]

/-- WasmEvent rows of one `wasm` event (src/sink/index.ts lines 637–649). -/
def wasmEventRowsOf (height tx_hash msg_index : Js) (event_type : String)
    (attrsPairs : List AttrPair) : List Js :=
  let contract :=
    (findAttr attrsPairs "_contract_address").or (findAttr attrsPairs "contract_address")
  match contract with
  | some c =>
    if c ≠ "" then
      [.obj [("contract", .str c), ("height", height), ("tx_hash", tx_hash),
        ("msg_index", msg_index), ("event_type", .str event_type),
        ("attributes", attrPairsJs attrsPairs)]]
    else []
  | none => []

/-- The row sets produced for one normalized event. -/
structure EventRows where
  evRow : Js
  transfers : List Js
  stakeDeleg : List Js
  stakeDistr : List Js
  wasmEvents : List Js
  attrRows : List Js

/-- Extraction for one event of one log entry (src/sink/index.ts lines
514–661). -/
def extractEventRows (height tx_hash msg_index : Js) (msgs : List Js)
    (firstSigner : Js) (ei : ℕ) (ev : Js) : EventRows :=
  let event_type := jsToString (jsNullish (ev.get "type") (.str "unknown"))
  let attrsPairs := attrsToPairs (ev.get "attributes")
  let evRow : Js := .obj [("tx_hash", tx_hash), ("msg_index", msg_index),
    ("event_index", .num (ei : ℚ)), ("event_type", .str event_type),
    ("attributes", attrPairsJs attrsPairs), ("height", height)]
  let transfers :=
    if event_type = "transfer" then transferRowsOf height tx_hash msg_index attrsPairs
    else []
  let stakeDeleg :=
    if event_type = "delegate" ∨ event_type = "redelegate" ∨ event_type = "unbond" ∨
        event_type = "complete_unbonding" then
      [stakeDelegRowOf height tx_hash msg_index event_type attrsPairs msgs firstSigner]
    else []
  let stakeDistr :=
    if event_type = "withdraw_rewards" ∨ event_type = "withdraw_commission" ∨
        event_type = "set_withdraw_address" then
      [stakeDistrRowOf height tx_hash msg_index event_type attrsPairs]
    else []
  let wasmEvents :=
    if event_type = "wasm" then wasmEventRowsOf height tx_hash msg_index event_type attrsPairs
    else []
  let attrRows := attrsPairs.map (fun p =>
    Js.obj [("tx_hash", tx_hash), ("msg_index", msg_index), ("event_index", .num (ei : ℚ)),
      ("key", .str p.key), ("value", optStrJs p.value), ("height", height)])
  ⟨evRow, transfers, stakeDeleg, stakeDistr, wasmEvents, attrRows⟩

/-- The row sets produced for one transaction. -/
structure TxRows where
  txRow : Js
  msgRows : List Js
  wasmExecRows : List Js
  evRows : List Js
  attrRows : List Js
  transfersRows : List Js
  stakeDelegRows : List Js
  stakeDistrRows : List Js
  wasmEventsRows : List Js

/-- Extraction for one transaction of the block (the body of the `for (const
tx of txs)` loop, src/sink/index.ts lines 443–663). -/
def extractTxRows (height time : Js) (tx : Js) : TxRows :=
  let tx_hash := jsNullish (tx.get "hash")
    (jsNullish (tx.get "txhash") (jsNullish (tx.get "tx_hash") .jnull))
  let tx_index := jsToNumber (jsNullish (tx.get "index")
    (jsNullish (tx.get "tx_index") (jsNullish ((tx.get "tx_response").get "index") (.num 0))))
  let code := jsToNumber (jsNullish (tx.get "code")
    (jsNullish ((tx.get "tx_response").get "code") (.num 0)))
  let gas_wanted := toNum (jsNullish (tx.get "gas_wanted")
    ((tx.get "tx_response").get "gas_wanted"))
  let gas_used := toNum (jsNullish (tx.get "gas_used")
    ((tx.get "tx_response").get "gas_used"))
  let fee := jsNullish (tx.get "fee")
    (buildFeeFromDecodedFee (((tx.get "decoded").get "auth_info").get "fee"))
  let memo := jsNullish (tx.get "memo")
    (jsNullish (((tx.get "decoded").get "body").get "memo") .jnull)
  let signers0 : Js := if (tx.get "signers").isArr then tx.get "signers" else .jnull
  let raw_tx := jsNullish (tx.get "raw_tx")
    (jsNullish (tx.get "decoded") (jsNullish (tx.get "raw") .jnull))
  let log_summary := jsNullish (tx.get "log_summary")
    (jsNullish ((tx.get "tx_response").get "raw_log") .jnull)
  let msgs := pickMessages tx
  let signers :=
    if ¬signers0.truthy ∨ (normArray signers0).isEmpty then
      let derived := collectSignersFromMessages msgs
      if derived.truthy then derived else signers0
    else signers0
  let firstSigner :=
    if signers.isArr ∧ ¬(normArray signers).isEmpty then signers.idx 0 else .jnull
  let txRow : Js := .obj [("tx_hash", tx_hash), ("height", height), ("tx_index", tx_index),
    ("code", code), ("gas_wanted", gas_wanted), ("gas_used", gas_used), ("fee", fee),
    ("memo", memo), ("signers", signers), ("raw_tx", raw_tx),
    ("log_summary", log_summary), ("time", time)]
  let msgRows := msgs.enum.map (fun p =>
    Js.obj [("tx_hash", tx_hash), ("msg_index", .num (p.1 : ℚ)), ("height", height),
      ("type_url", msgTypeOf p.2), ("value", p.2),
      ("signer", jsNullish (p.2.get "signer") (jsNullish (p.2.get "from_address")
        (jsNullish (p.2.get "delegator_address") .jnull)))])
  let wasmExecRows := msgs.enum.filterMap (fun p =>
    let t := msgTypeOf p.2
    let isExec : Bool := match t with
      | .str s => decide (s = "/cosmwasm.wasm.v1.MsgExecuteContract")
      | _ => false
    if isExec then
      let codeZero : Bool := match code with | .num q => decide (q = 0) | _ => false
      some (Js.obj [("tx_hash", tx_hash), ("msg_index", .num (p.1 : ℚ)),
        ("contract", jsNullish (p.2.get "contract")
          (jsNullish (p.2.get "contract_address") .jnull)),
        ("caller", jsNullish (p.2.get "sender") .jnull),
        ("funds", jsNullish (p.2.get "funds") .jnull),
        ("msg", jsNullish (p.2.get "msg") .jnull),
        ("success", .jbool codeZero),
        ("error", if codeZero then .jnull else jsNullish log_summary .jnull),
        ("gas_used", gas_used), ("height", height)])
    else none)
  let logs := pickLogs tx
  let eventRows := logs.flatMap (fun l =>
    let msg_index := jsToNumber (jsNullish (l.get "msg_index") (.num (-1)))
    let events := normArray (l.get "events")
    events.enum.map (fun p =>
      extractEventRows height tx_hash msg_index msgs firstSigner p.1 p.2))
  ⟨txRow, msgRows, wasmExecRows,
    eventRows.map (·.evRow),
    eventRows.flatMap (·.attrRows),
    eventRows.flatMap (·.transfers),
    eventRows.flatMap (·.stakeDeleg),
    eventRows.flatMap (·.stakeDistr),
    eventRows.flatMap (·.wasmEvents)⟩

/-- The full bag of row sets `extractRows` returns. -/
structure RowBag where
  blockRow : Js
  txRows : List Js
  msgRows : List Js
  evRows : List Js
  attrRows : List Js
  transfersRows : List Js
  stakeDelegRows : List Js
  stakeDistrRows : List Js
  wasmExecRows : List Js
  wasmEventsRows : List Js
  govDepositsRows : List Js
  govVotesRows : List Js
  govProposalsRows : List Js
  height : Js

/-- `PostgresSink.extractRows`: project an assembled block object into
per-table row sets. -/
def extractRows (blockLine : Js) : RowBag :=
  let height := jsToNumber ((blockLine.get "meta").get "height")
  let time := Js.date ((blockLine.get "meta").get "time")
  let b := blockLine.get "block"
  let blockRow : Js := .obj [("height", height),
    ("block_hash", jsNullish ((b.get "block_id").get "hash") .jnull),
    ("time", time),
    ("proposer_address", jsNullish
      (((((b.get "block").get "last_commit").get "signatures").idx 0).get "validator_address")
      .jnull),
    ("tx_count", .num (if (blockLine.get "txs").isArr then
      ((normArray (blockLine.get "txs")).length : ℚ) else 0)),
    ("size_bytes", jsNullish ((b.get "block").get "size") .jnull),
    ("last_commit_hash", jsNullish
      ((((b.get "block").get "last_commit").get "block_id").get "hash") .jnull),
    ("data_hash", jsNullish (((b.get "block").get "data").get "hash") .jnull),
    ("evidence_count", .num (if (((b.get "block").get "evidence").get "evidence").isArr then
      ((normArray (((b.get "block").get "evidence").get "evidence")).length : ℚ) else 0)),
    ("app_hash", jsNullish (((b.get "block").get "header").get "app_hash") .jnull)]
  let txs := if (blockLine.get "txs").isArr then normArray (blockLine.get "txs") else []
  let perTx := txs.map (extractTxRows height time)
  let gov := jsNullish (blockLine.get "gov") (.obj [])
  let govDeposits := if (gov.get "deposits").isArr then normArray (gov.get "deposits") else []
  let govVotes := if (gov.get "votes").isArr then normArray (gov.get "votes") else []
  let govProposals := if (gov.get "proposals").isArr then normArray (gov.get "proposals") else []
  ⟨blockRow,
    perTx.map (·.txRow),
    perTx.flatMap (·.msgRows),
    perTx.flatMap (·.evRows),
    perTx.flatMap (·.attrRows),
    perTx.flatMap (·.transfersRows),
    perTx.flatMap (·.stakeDelegRows),
    perTx.flatMap (·.stakeDistrRows),
    perTx.flatMap (·.wasmExecRows),
    perTx.flatMap (·.wasmEventsRows),
    govDeposits, govVotes, govProposals, height⟩

/-! ## PostgreSQL sink (src/sink/index.ts)

Database effects are modelled as a trace of operations. A flush can fail in
any per-table insert, the progress upsert, or the commit; the oracle
`failPhase` names the first phase (0 = blocks … 12 = gov proposals,
13 = progress upsert, 14 = COMMIT) that raises, `none` for a clean run. -/

/-- Per-table in-memory buffers of the sink (batch-insert mode). -/
structure Buffers where
  blocks : List Js
  txs : List Js
  msgs : List Js
  events : List Js
  attrs : List Js
  transfers : List Js
  stakeDeleg : List Js
  stakeDistr : List Js
  wasmExec : List Js
  wasmEvents : List Js
  govDeposits : List Js
  govVotes : List Js
  govProposals : List Js

/-- Empty buffers. -/
def emptyBuffers : Buffers :=
  ⟨[], [], [], [], [], [], [], [], [], [], [], [], []⟩

/-- Database operations issued by the sink. -/
inductive PgOp where
  | ensurePartitions (lo hi : Js)
  | beginTxn
  | insBlocks (rows : List Js)
  | insTxs (rows : List Js)
  | insMsgs (rows : List Js)
  | insEvents (rows : List Js)
  | insAttrs (rows : List Js)
  | insTransfers (rows : List Js)
  | insStakeDeleg (rows : List Js)
  | insStakeDistr (rows : List Js)
  | insWasmExec (rows : List Js)
  | insWasmEvents (rows : List Js)
  | insGovDeposits (rows : List Js)
  | insGovVotes (rows : List Js)
  | upsGovProposals (rows : List Js)
  | upsertProgress (id : String) (h : ℚ)
  | commitTxn
  | rollbackTxn

/-- Finite heights of a row list: `rows.map(r => r.height)` filtered by
`Number.isFinite`. -/
def heightsOfRows (rows : List Js) : List ℚ :=
  rows.filterMap (fun r =>
    match r.get "height" with
    | .num q => some q
    | _ => none)

/-- The thirteen per-table buffers in the order `flushAll` reads them. -/
def buffersList (st : Buffers) : List (List Js) :=
  [st.blocks, st.txs, st.msgs, st.events, st.attrs, st.transfers, st.stakeDeleg,
    st.stakeDistr, st.wasmExec, st.wasmEvents, st.govDeposits, st.govVotes,
    st.govProposals]

/-- All finite buffered heights, in the buffer order of `flushAll`. -/
def heightsOf (st : Buffers) : List ℚ :=
  (buffersList st).flatMap heightsOfRows

/-- Whether every buffer is empty (the early return of `flushAll`). -/
def buffersEmpty (st : Buffers) : Bool :=
  st.blocks.isEmpty && st.txs.isEmpty && st.msgs.isEmpty && st.events.isEmpty &&
    st.attrs.isEmpty && st.transfers.isEmpty && st.stakeDeleg.isEmpty &&
    st.stakeDistr.isEmpty && st.wasmExec.isEmpty && st.wasmEvents.isEmpty &&
    st.govDeposits.isEmpty && st.govVotes.isEmpty && st.govProposals.isEmpty

/-- The thirteen flush phases in source order, followed by the progress
upsert; phase `i` issues its statement against the buffer contents at flush
start. -/
def phaseOps (st : Buffers) (id : String) (maxH : ℚ) : List PgOp :=
  [.insBlocks st.blocks, .insTxs st.txs, .insMsgs st.msgs, .insEvents st.events,
    .insAttrs st.attrs, .insTransfers st.transfers, .insStakeDeleg st.stakeDeleg,
    .insStakeDistr st.stakeDistr, .insWasmExec st.wasmExec, .insWasmEvents st.wasmEvents,
    .insGovDeposits st.govDeposits, .insGovVotes st.govVotes,
    .upsGovProposals st.govProposals, .upsertProgress id maxH]

/-- Clearing performed right after phase `i` succeeds (`this.bufX = []`);
phases 13 (progress) and later clear nothing. -/
def clearPhase (st : Buffers) : ℕ → Buffers
  | 0 => { st with blocks := [] }
  | 1 => { st with txs := [] }
  | 2 => { st with msgs := [] }
  | 3 => { st with events := [] }
  | 4 => { st with attrs := [] }
  | 5 => { st with transfers := [] }
  | 6 => { st with stakeDeleg := [] }
  | 7 => { st with stakeDistr := [] }
  | 8 => { st with wasmExec := [] }
  | 9 => { st with wasmEvents := [] }
  | 10 => { st with govDeposits := [] }
  | 11 => { st with govVotes := [] }
  | 12 => { st with govProposals := [] }
  | _ + 13 => st

/-- Buffer state after the first `k` phases cleared their buffers. -/
def clearFirst (st : Buffers) (k : ℕ) : Buffers :=
  (List.range (min k 13)).foldl clearPhase st

/-- Result of a flush (or of a `write`): the buffer state, the operation
trace, and whether the call returned without throwing. -/
structure SinkOut where
  bufs : Buffers
  ops : List PgOp
  ok : Bool

/-- `PostgresSink.flushAll` (src/sink/index.ts lines 825–949): early return
on empty buffers or no finite heights; otherwise ensure partitions over
`[minH, maxH]`, `BEGIN`, run the thirteen per-table phases — clearing each
buffer *immediately after its own phase succeeds* — then upsert progress and
`COMMIT`; any throw issues `ROLLBACK` and rethrows, leaving the buffers as
the partial clearing left them. Failures of `ensureCorePartitions`/`BEGIN`
themselves are outside this model's oracle. -/
def flushAll (id : String) (failPhase : Option ℕ) (st : Buffers) : SinkOut :=
  if buffersEmpty st then ⟨st, [], true⟩
  else
    match heightsOf st with
    | [] => ⟨st, [], true⟩
    | h :: t =>
      let minH := t.foldl min h
      let maxH := t.foldl max h
      let pre : List PgOp := [.ensurePartitions (.num minH) (.num maxH), .beginTxn]
      let phases := phaseOps st id maxH
      match failPhase with
      | some k =>
        if k ≤ 13 then
          ⟨clearFirst st k, pre ++ phases.take (k + 1) ++ [.rollbackTxn], false⟩
        else if k = 14 then
          ⟨clearFirst st 13, pre ++ phases ++ [.commitTxn, .rollbackTxn], false⟩
        else ⟨clearFirst st 13, pre ++ phases ++ [.commitTxn], true⟩
      | none => ⟨clearFirst st 13, pre ++ phases ++ [.commitTxn], true⟩

/-- Insert statement of `persistBlockAtomic` for one row set, guarded by
`if (rows.length)`. -/
def insIfNonempty (mk : List Js → PgOp) (rows : List Js) : List PgOp :=
  if rows.isEmpty then [] else [mk rows]

/-- `PostgresSink.persistBlockAtomic` (src/sink/index.ts lines 703–740),
success path: the operation trace of one block-atomic write. Gov row sets
are not named in its destructuring and `upsertProgress` is never called. -/
def persistBlockAtomicOps (blockLine : Js) : List PgOp :=
  let r := extractRows blockLine
  [.ensurePartitions r.height r.height, .beginTxn, .insBlocks [r.blockRow]] ++
    insIfNonempty .insTxs r.txRows ++
    insIfNonempty .insMsgs r.msgRows ++
    insIfNonempty .insEvents r.evRows ++
    insIfNonempty .insAttrs r.attrRows ++
    insIfNonempty .insTransfers r.transfersRows ++
    insIfNonempty .insStakeDeleg r.stakeDelegRows ++
    insIfNonempty .insStakeDistr r.stakeDistrRows ++
    insIfNonempty .insWasmExec r.wasmExecRows ++
    insIfNonempty .insWasmEvents r.wasmEventsRows ++
    [.commitTxn]

/-- Batch thresholds (`this.batchSizes`, src/sink/index.ts lines 308–322,
merged with `cfg.batchSizes`). -/
structure BatchSizes where
  blocks : ℕ
  txs : ℕ
  msgs : ℕ
  events : ℕ
  attrs : ℕ
  transfers : ℕ
  stakeDeleg : ℕ
  stakeDistr : ℕ
  wasmExec : ℕ
  wasmEvents : ℕ
  govDeposits : ℕ
  govVotes : ℕ
  govProposals : ℕ

/-- The default thresholds. -/
def defaultBatchSizes : BatchSizes :=
  ⟨1000, 2000, 5000, 5000, 10000, 5000, 5000, 5000, 5000, 5000, 5000, 5000, 1000⟩

/-- Append the rows extracted from one block to the buffers (the `push`
block of `persistBlockBuffered`). -/
def appendRows (st : Buffers) (r : RowBag) : Buffers :=
  ⟨st.blocks ++ [r.blockRow], st.txs ++ r.txRows, st.msgs ++ r.msgRows,
    st.events ++ r.evRows, st.attrs ++ r.attrRows, st.transfers ++ r.transfersRows,
    st.stakeDeleg ++ r.stakeDelegRows, st.stakeDistr ++ r.stakeDistrRows,
    st.wasmExec ++ r.wasmExecRows, st.wasmEvents ++ r.wasmEventsRows,
    st.govDeposits ++ r.govDepositsRows, st.govVotes ++ r.govVotesRows,
    st.govProposals ++ r.govProposalsRows⟩

/-- The flush trigger: some buffer reached its threshold. -/
def needFlush (sizes : BatchSizes) (st : Buffers) : Bool :=
  sizes.blocks ≤ st.blocks.length ∨ sizes.txs ≤ st.txs.length ∨
    sizes.msgs ≤ st.msgs.length ∨ sizes.events ≤ st.events.length ∨
    sizes.attrs ≤ st.attrs.length ∨ sizes.transfers ≤ st.transfers.length ∨
    sizes.stakeDeleg ≤ st.stakeDeleg.length ∨ sizes.stakeDistr ≤ st.stakeDistr.length ∨
    sizes.wasmExec ≤ st.wasmExec.length ∨ sizes.wasmEvents ≤ st.wasmEvents.length ∨
    sizes.govDeposits ≤ st.govDeposits.length ∨ sizes.govVotes ≤ st.govVotes.length ∨
    sizes.govProposals ≤ st.govProposals.length

/-- `PostgresSink.persistBlockBuffered` (src/sink/index.ts lines 748–817):
buffer the block's rows, then flush when any buffer reached its
threshold. -/
def persistBlockBuffered (sizes : BatchSizes) (id : String) (failPhase : Option ℕ)
    (st : Buffers) (blockLine : Js) : SinkOut :=
  let st' := appendRows st (extractRows blockLine)
  if needFlush sizes st' then flushAll id failPhase st' else ⟨st', [], true⟩

/-- The two persistence modes. -/
inductive PgMode where
  | blockAtomic
  | batchInsert

/-- Input to `PostgresSink.write`: a string line or an already-parsed
object. -/
inductive SinkLine where
  | strLine (s : String)
  | jsLine (j : Js)

/-- The post-parse body of `write`: drop objects with a truthy `error`
field, otherwise dispatch on the mode. -/
def writeObj (mode : PgMode) (sizes : BatchSizes) (id : String)
    (failPhase : Option ℕ) (st : Buffers) (o : Js) : SinkOut :=
  if (o.get "error").truthy then ⟨st, [], true⟩
  else
    match mode with
    | .blockAtomic => ⟨st, persistBlockAtomicOps o, true⟩
    | .batchInsert => persistBlockBuffered sizes id failPhase st o

/-- `PostgresSink.write` (src/sink/index.ts lines 351–369): parse string
input with `JSON.parse` (the platform parser is the `parse` argument),
silently returning on a parse failure; ignore lines with a truthy `error`;
otherwise persist according to the mode. -/
def sinkWrite (mode : PgMode) (parse : String → Option Js) (sizes : BatchSizes)
    (id : String) (failPhase : Option ℕ) (st : Buffers) (line : SinkLine) : SinkOut :=
  match line with
  | .strLine s =>
    match parse s with
    | none => ⟨st, [], true⟩
    | some o => writeObj mode sizes id failPhase st o
  | .jsLine o => writeObj mode sizes id failPhase st o

/-! ## Claims about the sink -/

/-- Matcher for `ROLLBACK`. -/
def isRollbackOp : PgOp → Bool
  | .rollbackTxn => true
  | _ => false

/-- Matcher for `COMMIT`. -/
def isCommitOp : PgOp → Bool
  | .commitTxn => true
  | _ => false

/-- Matcher for `BEGIN`. -/
def isBeginOp : PgOp → Bool
  | .beginTxn => true
  | _ => false

/-- Matcher for the governance inserts/upserts. -/
def isGovOp : PgOp → Bool
  | .insGovDeposits _ => true
  | .insGovVotes _ => true
  | .upsGovProposals _ => true
  | _ => false

/-- Matcher for the progress upsert. -/
def isProgressOp : PgOp → Bool
  | .upsertProgress _ _ => true
  | _ => false

/-- A buffered state with one block row and one transaction row at
height 1. -/
def lossDemoBuffers : Buffers :=
  { emptyBuffers with
    blocks := [Js.obj [("height", Js.num 1), ("block_hash", Js.str "AB")]]
    txs := [Js.obj [("height", Js.num 1), ("tx_hash", Js.str "CD")]] }

/-- C1 (failing): when the transaction-table insert (phase 1) of a flush
throws, `flushAll` does issue `ROLLBACK` and rethrows, but the in-memory
block buffer was already cleared inside the transaction, so the block rows
are lost instead of being retried — contradicting the documented
"buffers remain intact if the transaction fails". A failure in the progress
upsert (phase 13) loses every per-table buffer. -/
theorem flushAll_failure_loses_buffers :
    (flushAll "default" (some 1) lossDemoBuffers).ok = false ∧
    (flushAll "default" (some 1) lossDemoBuffers).ops.countP isRollbackOp = 1 ∧
    (flushAll "default" (some 1) lossDemoBuffers).bufs.blocks = [] ∧
    lossDemoBuffers.blocks.length = 1 ∧
    (flushAll "default" (some 1) lossDemoBuffers).bufs.txs = lossDemoBuffers.txs ∧
    (flushAll "default" (some 13) lossDemoBuffers).ok = false ∧
    (flushAll "default" (some 13) lossDemoBuffers).ops.countP isRollbackOp = 1 ∧
    (flushAll "default" (some 13) lossDemoBuffers).bufs.blocks = [] ∧
    (flushAll "default" (some 13) lossDemoBuffers).bufs.txs = [] := by
  refine ⟨rfl, by decide, rfl, rfl, rfl, rfl, by decide, rfl, rfl⟩

/-- C10: `write` with a string that fails to parse, or with a line whose
top-level `error` field is truthy, returns without buffering rows, without
issuing any database operation, and without raising. -/
theorem sinkWrite_ignores_bad_lines (mode : PgMode) (parse : String → Option Js)
    (sizes : BatchSizes) (id : String) (failPhase : Option ℕ) (st : Buffers) :
    (∀ s, parse s = none →
      sinkWrite mode parse sizes id failPhase st (.strLine s) = ⟨st, [], true⟩) ∧
    (∀ s o, parse s = some o → (o.get "error").truthy = true →
      sinkWrite mode parse sizes id failPhase st (.strLine s) = ⟨st, [], true⟩) ∧
    (∀ o, (o.get "error").truthy = true →
      sinkWrite mode parse sizes id failPhase st (.jsLine o) = ⟨st, [], true⟩) := by
  refine ⟨?_, ?_, ?_⟩
  · intro s hp
    simp [sinkWrite, hp]
  · intro s o hp he
    simp [sinkWrite, writeObj, hp, he]
  · intro o he
    simp [sinkWrite, writeObj, he]

/-- Witness for `sinkWrite_ignores_bad_lines`: an unparsable line and an
error line are both ignored in batch-insert mode. -/
theorem sinkWrite_ignores_bad_lines_witness :
    sinkWrite .batchInsert (fun _ => none) defaultBatchSizes "default" none
      emptyBuffers (.strLine "not json") = ⟨emptyBuffers, [], true⟩ ∧
    sinkWrite .batchInsert (fun _ => none) defaultBatchSizes "default" none
      emptyBuffers (.jsLine (Js.obj [("error", Js.str "boom")])) =
      ⟨emptyBuffers, [], true⟩ :=
  ⟨(sinkWrite_ignores_bad_lines _ _ _ _ _ _).1 "not json" rfl,
    (sinkWrite_ignores_bad_lines _ _ _ _ _ _).2.2 (Js.obj [("error", Js.str "boom")])
      (by decide)⟩

/-- Counting over a guarded single insert. -/
theorem countP_insIfNonempty (mk : List Js → PgOp) (rows : List Js) (p : PgOp → Bool)
    (h : ∀ rs, p (mk rs) = false) : (insIfNonempty mk rows).countP p = 0 := by
  unfold insIfNonempty
  split <;> simp [h]

/-- Membership in a guarded single insert. -/
theorem mem_insIfNonempty (mk : List Js → PgOp) (rows : List Js) (h : rows ≠ []) :
    mk rows ∈ insIfNonempty mk rows := by
  unfold insIfNonempty
  rw [if_neg (by simpa using h)]
  exact List.mem_singleton_self _

/-- C2 (amended): a block-atomic `write` runs `ensureCorePartitions` for the
block's height, then a single `BEGIN` … `COMMIT` transaction that inserts
the block row and each *core* row set that is nonempty (transactions,
messages, events, attributes, transfers, staking delegation/distribution,
wasm executions/events) — but it inserts no governance rows and performs no
progress upsert. -/
theorem persistBlockAtomic_txn_shape (blockLine : Js) :
    (persistBlockAtomicOps blockLine).head? =
      some (.ensurePartitions (extractRows blockLine).height (extractRows blockLine).height) ∧
    (persistBlockAtomicOps blockLine).get? 1 = some .beginTxn ∧
    (persistBlockAtomicOps blockLine).getLast? = some .commitTxn ∧
    (persistBlockAtomicOps blockLine).countP isBeginOp = 1 ∧
    (persistBlockAtomicOps blockLine).countP isCommitOp = 1 ∧
    (persistBlockAtomicOps blockLine).countP isRollbackOp = 0 ∧
    (persistBlockAtomicOps blockLine).countP isGovOp = 0 ∧
    (persistBlockAtomicOps blockLine).countP isProgressOp = 0 ∧
    PgOp.insBlocks [(extractRows blockLine).blockRow] ∈ persistBlockAtomicOps blockLine ∧
    ((extractRows blockLine).txRows ≠ [] →
      PgOp.insTxs (extractRows blockLine).txRows ∈ persistBlockAtomicOps blockLine) ∧
    ((extractRows blockLine).msgRows ≠ [] →
      PgOp.insMsgs (extractRows blockLine).msgRows ∈ persistBlockAtomicOps blockLine) ∧
    ((extractRows blockLine).evRows ≠ [] →
      PgOp.insEvents (extractRows blockLine).evRows ∈ persistBlockAtomicOps blockLine) ∧
    ((extractRows blockLine).attrRows ≠ [] →
      PgOp.insAttrs (extractRows blockLine).attrRows ∈ persistBlockAtomicOps blockLine) ∧
    ((extractRows blockLine).transfersRows ≠ [] →
      PgOp.insTransfers (extractRows blockLine).transfersRows ∈
        persistBlockAtomicOps blockLine) ∧
    ((extractRows blockLine).stakeDelegRows ≠ [] →
      PgOp.insStakeDeleg (extractRows blockLine).stakeDelegRows ∈
        persistBlockAtomicOps blockLine) ∧
    ((extractRows blockLine).stakeDistrRows ≠ [] →
      PgOp.insStakeDistr (extractRows blockLine).stakeDistrRows ∈
        persistBlockAtomicOps blockLine) ∧
    ((extractRows blockLine).wasmExecRows ≠ [] →
      PgOp.insWasmExec (extractRows blockLine).wasmExecRows ∈
        persistBlockAtomicOps blockLine) ∧
    ((extractRows blockLine).wasmEventsRows ≠ [] →
      PgOp.insWasmEvents (extractRows blockLine).wasmEventsRows ∈
        persistBlockAtomicOps blockLine) := by
  have hcount : ∀ p : PgOp → Bool,
      (∀ rs, p (PgOp.insTxs rs) = false) → (∀ rs, p (PgOp.insMsgs rs) = false) →
      (∀ rs, p (PgOp.insEvents rs) = false) → (∀ rs, p (PgOp.insAttrs rs) = false) →
      (∀ rs, p (PgOp.insTransfers rs) = false) →
      (∀ rs, p (PgOp.insStakeDeleg rs) = false) →
      (∀ rs, p (PgOp.insStakeDistr rs) = false) →
      (∀ rs, p (PgOp.insWasmExec rs) = false) →
      (∀ rs, p (PgOp.insWasmEvents rs) = false) →
      (persistBlockAtomicOps blockLine).countP p =
        (if p (.ensurePartitions (extractRows blockLine).height
          (extractRows blockLine).height) then 1 else 0) +
        (if p .beginTxn then 1 else 0) +
        (if p (.insBlocks [(extractRows blockLine).blockRow]) then 1 else 0) +
        (if p .commitTxn then 1 else 0) := by
    intro p h1 h2 h3 h4 h5 h6 h7 h8 h9
    simp only [persistBlockAtomicOps, List.countP_append, List.countP_cons,
      List.countP_nil, countP_insIfNonempty _ _ _ h1, countP_insIfNonempty _ _ _ h2,
      countP_insIfNonempty _ _ _ h3, countP_insIfNonempty _ _ _ h4,
      countP_insIfNonempty _ _ _ h5, countP_insIfNonempty _ _ _ h6,
      countP_insIfNonempty _ _ _ h7, countP_insIfNonempty _ _ _ h8,
      countP_insIfNonempty _ _ _ h9]
    by_cases ha : p (.ensurePartitions (extractRows blockLine).height
      (extractRows blockLine).height) = true <;>
      by_cases hb : p .beginTxn = true <;>
      by_cases hc : p (.insBlocks [(extractRows blockLine).blockRow]) = true <;>
      by_cases hd : p .commitTxn = true <;>
      simp [ha, hb, hc, hd]
  refine ⟨?_, ?_, ?_, ?_, ?_, ?_, ?_, ?_, ?_, ?_, ?_, ?_, ?_, ?_, ?_, ?_, ?_, ?_⟩
  · simp [persistBlockAtomicOps]
  · simp [persistBlockAtomicOps]
  · simp only [persistBlockAtomicOps]
    repeat apply List.getLast?_append
  · rw [hcount isBeginOp (fun _a => rfl) (fun _b => rfl) (fun _c => rfl) (fun _d => rfl)
      (fun _e => rfl) (fun _f => rfl) (fun _g => rfl) (fun _h => rfl) (fun _i => rfl)]
    simp [isBeginOp]
  · rw [hcount isCommitOp (fun _a => rfl) (fun _b => rfl) (fun _c => rfl) (fun _d => rfl)
      (fun _e => rfl) (fun _f => rfl) (fun _g => rfl) (fun _h => rfl) (fun _i => rfl)]
    simp [isCommitOp]
  · rw [hcount isRollbackOp (fun _a => rfl) (fun _b => rfl) (fun _c => rfl) (fun _d => rfl)
      (fun _e => rfl) (fun _f => rfl) (fun _g => rfl) (fun _h => rfl) (fun _i => rfl)]
    simp [isRollbackOp]
  · rw [hcount isGovOp (fun _a => rfl) (fun _b => rfl) (fun _c => rfl) (fun _d => rfl)
      (fun _e => rfl) (fun _f => rfl) (fun _g => rfl) (fun _h => rfl) (fun _i => rfl)]
    simp [isGovOp]
  · rw [hcount isProgressOp (fun _a => rfl) (fun _b => rfl) (fun _c => rfl) (fun _d => rfl)
      (fun _e => rfl) (fun _f => rfl) (fun _g => rfl) (fun _h => rfl) (fun _i => rfl)]
    simp [isProgressOp]
  · simp [persistBlockAtomicOps]
  · intro h
    simp only [persistBlockAtomicOps, List.mem_append]
    exact Or.inl (Or.inl (Or.inl (Or.inl (Or.inl (Or.inl (Or.inl (Or.inl (Or.inl
      (Or.inr (mem_insIfNonempty _ _ h))))))))))
  · intro h
    simp only [persistBlockAtomicOps, List.mem_append]
    exact Or.inl (Or.inl (Or.inl (Or.inl (Or.inl (Or.inl (Or.inl (Or.inl
      (Or.inr (mem_insIfNonempty _ _ h)))))))))
  · intro h
    simp only [persistBlockAtomicOps, List.mem_append]
    exact Or.inl (Or.inl (Or.inl (Or.inl (Or.inl (Or.inl (Or.inl
      (Or.inr (mem_insIfNonempty _ _ h))))))))
  · intro h
    simp only [persistBlockAtomicOps, List.mem_append]
    exact Or.inl (Or.inl (Or.inl (Or.inl (Or.inl (Or.inl
      (Or.inr (mem_insIfNonempty _ _ h)))))))
  · intro h
    simp only [persistBlockAtomicOps, List.mem_append]
    exact Or.inl (Or.inl (Or.inl (Or.inl (Or.inl
      (Or.inr (mem_insIfNonempty _ _ h))))))
  · intro h
    simp only [persistBlockAtomicOps, List.mem_append]
    exact Or.inl (Or.inl (Or.inl (Or.inl (Or.inr (mem_insIfNonempty _ _ h)))))
  · intro h
    simp only [persistBlockAtomicOps, List.mem_append]
    exact Or.inl (Or.inl (Or.inl (Or.inr (mem_insIfNonempty _ _ h))))
  · intro h
    simp only [persistBlockAtomicOps, List.mem_append]
    exact Or.inl (Or.inl (Or.inr (mem_insIfNonempty _ _ h)))
  · intro h
    simp only [persistBlockAtomicOps, List.mem_append]
    exact Or.inl (Or.inr (mem_insIfNonempty _ _ h))

/-- An assembled block record at height 5 carrying one governance deposit
row. -/
def govDemoBlock : Js :=
  Js.obj [("meta", Js.obj [("height", Js.str "5"), ("time", Js.str "2024-01-01T00:00:00Z")]),
    ("block", Js.obj []), ("txs", Js.arr []),
    ("gov", Js.obj [("deposits", Js.arr [Js.obj [("proposal_id", Js.num 7),
      ("depositor", Js.str "cosmos1depositor00"), ("denom", Js.str "uatom"),
      ("amount", Js.str "100"), ("height", Js.num 5), ("tx_hash", Js.str "AB")]]),
      ("votes", Js.arr []), ("proposals", Js.arr [])])]

/-- C2 (counterexample): a block-atomic write of a block whose row
extraction yields a governance deposit row issues neither a governance
insert nor a progress upsert inside its transaction, so the claim that every
block-atomic `write` inserts *all* row sets (including governance rows) and
updates the progress checkpoint in the same transaction is false. -/
theorem persistBlockAtomic_counterexample :
    (extractRows govDemoBlock).govDepositsRows.length = 1 ∧
    (persistBlockAtomicOps govDemoBlock).countP isGovOp = 0 ∧
    (persistBlockAtomicOps govDemoBlock).countP isProgressOp = 0 ∧
    (persistBlockAtomicOps govDemoBlock).countP isCommitOp = 1 := by
  refine ⟨by decide, by decide, by decide, by decide⟩

/-- An assembled block record at height 6 with one transaction that carries
one message. -/
def txDemoBlock : Js :=
  Js.obj [("meta", Js.obj [("height", Js.str "6"), ("time", Js.str "2024-01-01T00:00:05Z")]),
    ("block", Js.obj []),
    ("txs", Js.arr [Js.obj [("hash", Js.str "FF00"),
      ("decoded", Js.obj [("body", Js.obj [("messages", Js.arr [Js.obj
        [("@type", Js.str "/cosmos.bank.v1beta1.MsgSend"),
          ("from_address", Js.str "cosmos1sender00000")]])])])]])]

/-- Witness for `persistBlockAtomic_txn_shape` on a block with one
transaction: the transaction-row and message-row inserts appear in the
operation trace. -/
theorem persistBlockAtomic_txn_shape_witness :
    PgOp.insTxs (extractRows txDemoBlock).txRows ∈ persistBlockAtomicOps txDemoBlock ∧
    PgOp.insMsgs (extractRows txDemoBlock).msgRows ∈ persistBlockAtomicOps txDemoBlock ∧
    (persistBlockAtomicOps txDemoBlock).countP isGovOp = 0 ∧
    (persistBlockAtomicOps txDemoBlock).countP isProgressOp = 0 :=
  ⟨(persistBlockAtomic_txn_shape txDemoBlock).2.2.2.2.2.2.2.2.2.1
      (by simp [show (extractRows txDemoBlock).txRows.length = 1 from by decide,
        ← List.length_pos]),
    (persistBlockAtomic_txn_shape txDemoBlock).2.2.2.2.2.2.2.2.2.2.1
      (by simp [show (extractRows txDemoBlock).msgRows.length = 1 from by decide,
        ← List.length_pos]),
    (persistBlockAtomic_txn_shape txDemoBlock).2.2.2.2.2.2.1,
    (persistBlockAtomic_txn_shape txDemoBlock).2.2.2.2.2.2.2.1⟩

/-! ## Progress monotonicity in batch-insert mode (C4)

Within one indexer run the sink observes blocks in strictly increasing
height order (the runner's ordering guarantee); every row extracted from a
block carries that block's height. The machine below interleaves such
buffered writes with flush attempts (each of which may fail at any phase)
and tracks the progress values durably committed by `upsertProgress` inside
committed transactions, together with the heights of all rows those
transactions committed. -/

/-- The row sets of one extracted block, in buffer order. -/
def bagList (r : RowBag) : List (List Js) :=
  [[r.blockRow], r.txRows, r.msgRows, r.evRows, r.attrRows, r.transfersRows,
    r.stakeDelegRows, r.stakeDistrRows, r.wasmExecRows, r.wasmEventsRows,
    r.govDepositsRows, r.govVotesRows, r.govProposalsRows]

/-- The heights carried by the rows extracted from one block. -/
def bagHeights (r : RowBag) : List ℚ :=
  (bagList r).flatMap heightsOfRows

/-- The fold computing `maxH` stays inside the list. -/
theorem foldl_max_mem (h : ℚ) (t : List ℚ) : t.foldl max h ∈ h :: t := by
  induction t generalizing h with
  | nil => simp
  | cons x t ih =>
    have := ih (max h x)
    rcases List.mem_cons.mp this with h1 | h1
    · rcases max_choice h x with hc | hc <;> rw [List.foldl_cons, h1, hc] <;> simp
    · simp only [List.foldl_cons]
      exact List.mem_cons_of_mem _ (List.mem_cons_of_mem _ h1)

/-- Every element is bounded by the fold computing `maxH`. -/
theorem le_foldl_max (h : ℚ) (t : List ℚ) : ∀ q ∈ h :: t, q ≤ t.foldl max h := by
  induction t generalizing h with
  | nil => simp
  | cons x t ih =>
    intro q hq
    simp only [List.foldl_cons]
    rcases List.mem_cons.mp hq with h1 | h1
    · calc q = h := h1
        _ ≤ max h x := le_max_left _ _
        _ ≤ t.foldl max (max h x) := ih (max h x) _ (List.mem_cons_self _ _)
    · rcases List.mem_cons.mp h1 with h2 | h2
      · calc q = x := h2
          _ ≤ max h x := le_max_right _ _
          _ ≤ t.foldl max (max h x) := ih (max h x) _ (List.mem_cons_self _ _)
      · exact ih (max h x) q (List.mem_cons_of_mem _ h2)

/-- Row heights distribute over list appends. -/
theorem heightsOfRows_append (xs ys : List Js) :
    heightsOfRows (xs ++ ys) = heightsOfRows xs ++ heightsOfRows ys :=
  List.filterMap_append _ _ _

/-- Buffer components after a buffered write are the componentwise appends. -/
theorem buffersList_appendRows (st : Buffers) (r : RowBag) :
    buffersList (appendRows st r) =
      List.zipWith (· ++ ·) (buffersList st) (bagList r) := rfl

/-- Membership in the heights of componentwise-appended component lists. -/
theorem mem_heights_zipWith_append (q : ℚ) :
    ∀ (as bs : List (List Js)),
      q ∈ (List.zipWith (· ++ ·) as bs).flatMap heightsOfRows →
      q ∈ as.flatMap heightsOfRows ∨ q ∈ bs.flatMap heightsOfRows := by
  intro as
  induction as with
  | nil => intro bs hq; simp at hq
  | cons a as ih =>
    intro bs hq
    cases bs with
    | nil => simp at hq
    | cons b bs =>
      simp only [List.zipWith_cons_cons, List.flatMap_cons, heightsOfRows_append,
        List.mem_append] at hq
      rcases hq with (hq | hq) | hq
      · exact Or.inl (by simp [List.flatMap_cons, List.mem_append, hq])
      · exact Or.inr (by simp [List.flatMap_cons, List.mem_append, hq])
      · rcases ih bs hq with h | h
        · exact Or.inl (by simp [List.flatMap_cons, List.mem_append, h])
        · exact Or.inr (by simp [List.flatMap_cons, List.mem_append, h])

/-- Heights of a buffered write come from the old buffers or the block. -/
theorem mem_heightsOf_appendRows (st : Buffers) (r : RowBag) (q : ℚ)
    (hq : q ∈ heightsOf (appendRows st r)) : q ∈ heightsOf st ∨ q ∈ bagHeights r := by
  rw [heightsOf, buffersList_appendRows] at hq
  exact mem_heights_zipWith_append q _ _ hq

/-- Clearing one phase's buffer sets one component to `[]`. -/
theorem buffersList_clearPhase (st : Buffers) (i : ℕ) :
    buffersList (clearPhase st i) = (buffersList st).set i [] := by
  match i with
  | 0 => rfl
  | 1 => rfl
  | 2 => rfl
  | 3 => rfl
  | 4 => rfl
  | 5 => rfl
  | 6 => rfl
  | 7 => rfl
  | 8 => rfl
  | 9 => rfl
  | 10 => rfl
  | 11 => rfl
  | 12 => rfl
  | n + 13 =>
    show buffersList st = (buffersList st).set (n + 13) []
    rw [List.set_eq_of_length_le]
    simp only [buffersList, List.length_cons, List.length_nil]
    omega

/-- Emptying one component only removes heights. -/
theorem mem_heights_set_nil (q : ℚ) :
    ∀ (l : List (List Js)) (i : ℕ),
      q ∈ (l.set i []).flatMap heightsOfRows → q ∈ l.flatMap heightsOfRows := by
  intro l
  induction l with
  | nil => intro i hq; simp at hq
  | cons a l ih =>
    intro i hq
    cases i with
    | zero =>
      simp only [List.set_cons_zero, List.flatMap_cons, List.mem_append] at hq
      rcases hq with hq | hq
      · simp [heightsOfRows] at hq
      · simp [List.flatMap_cons, List.mem_append, hq]
    | succ i =>
      simp only [List.set_cons_succ, List.flatMap_cons, List.mem_append] at hq
      rcases hq with hq | hq
      · simp [List.flatMap_cons, List.mem_append, hq]
      · simp [List.flatMap_cons, List.mem_append, ih i hq]

/-- Clearing one phase only removes heights. -/
theorem mem_heightsOf_clearPhase (st : Buffers) (i : ℕ) (q : ℚ)
    (hq : q ∈ heightsOf (clearPhase st i)) : q ∈ heightsOf st := by
  rw [heightsOf, buffersList_clearPhase] at hq
  exact mem_heights_set_nil q _ i hq

/-- Partial clearing only removes heights. -/
theorem mem_heightsOf_clearFirst (st : Buffers) (k : ℕ) (q : ℚ)
    (hq : q ∈ heightsOf (clearFirst st k)) : q ∈ heightsOf st := by
  unfold clearFirst at hq
  generalize hl : List.range (min k 13) = l at hq
  clear hl
  induction l generalizing st with
  | nil => exact hq
  | cons i l ih =>
    rw [List.foldl_cons] at hq
    exact mem_heightsOf_clearPhase st i q (ih (clearPhase st i) hq)

/-- The progress values durably committed by a flush: the `upsertProgress`
arguments of a trace whose transaction committed. -/
def committedProgressOf (out : SinkOut) : List ℚ :=
  if out.ok then
    out.ops.filterMap (fun op =>
      match op with
      | .upsertProgress _ h => some h
      | _ => none)
  else []

/-- State of one batch-insert run: the sink buffers, the highest height
written so far, the committed progress values in commit order, and the
heights of all durably committed rows. -/
structure BatchRun where
  bufs : Buffers
  lastH : Option ℚ
  progress : List ℚ
  committed : List ℚ

/-- Initial batch-run state. -/
def initBatchRun : BatchRun :=
  ⟨emptyBuffers, none, [], []⟩

/-- Effect of one flush attempt on a batch run. -/
def applyBatchFlush (id : String) (failPhase : Option ℕ) (s : BatchRun) : BatchRun :=
  let out := flushAll id failPhase s.bufs
  ⟨out.bufs, s.lastH, s.progress ++ committedProgressOf out,
    s.committed ++ (if out.ok && !out.ops.isEmpty then heightsOf s.bufs else [])⟩

/-- Effect of one buffered write on a batch run. -/
def applyBatchWrite (s : BatchRun) (blockLine : Js) (h : ℚ) : BatchRun :=
  ⟨appendRows s.bufs (extractRows blockLine), some h, s.progress, s.committed⟩

/-- Steps of a batch-insert run: a buffered write of the next block (its
extracted rows all carry its height, which exceeds every height written
before — the runner's ordering guarantee), or a flush attempt that may fail
at any phase. -/
inductive BatchStep (id : String) : BatchRun → BatchRun → Prop
  | write (s : BatchRun) (blockLine : Js) (h : ℚ) :
      (∀ q ∈ bagHeights (extractRows blockLine), q = h) →
      (∀ l, s.lastH = some l → l < h) →
      BatchStep id s (applyBatchWrite s blockLine h)
  | flush (s : BatchRun) (failPhase : Option ℕ) :
      BatchStep id s (applyBatchFlush id failPhase s)

/-- Reachability of batch-run states. -/
inductive BatchReachable (id : String) : BatchRun → Prop
  | init : BatchReachable id initBatchRun
  | step {s s' : BatchRun} :
      BatchReachable id s → BatchStep id s s' → BatchReachable id s'

/-- Outcome case analysis of `flushAll`: an inert early return, a failed
flush (no committed progress, buffers partially cleared), or a committed
flush whose single progress value is the maximum buffered height. -/
theorem flushAll_spec (id : String) (fp : Option ℕ) (st : Buffers) :
    (flushAll id fp st).ops = [] ∧ (flushAll id fp st).bufs = st ∧
      (flushAll id fp st).ok = true ∧ committedProgressOf (flushAll id fp st) = [] ∨
    (flushAll id fp st).ok = false ∧ committedProgressOf (flushAll id fp st) = [] ∧
      (∃ k, (flushAll id fp st).bufs = clearFirst st k) ∨
    (∃ h t, heightsOf st = h :: t ∧ (flushAll id fp st).ok = true ∧
      (flushAll id fp st).ops ≠ [] ∧ (flushAll id fp st).bufs = clearFirst st 13 ∧
      committedProgressOf (flushAll id fp st) = [t.foldl max h]) := by
  by_cases he : buffersEmpty st
  · left
    simp [flushAll, he, committedProgressOf]
  · rcases hh : heightsOf st with _ | ⟨h, t⟩
    · left
      simp [flushAll, he, hh, committedProgressOf]
    · have hne : ([.ensurePartitions (.num (t.foldl min h)) (.num (t.foldl max h)),
          .beginTxn] ++ phaseOps st id (t.foldl max h) ++ [.commitTxn] : List PgOp) ≠ [] := by
        simp
      have hcp : ∀ bufs : Buffers,
          committedProgressOf ⟨bufs,
            [.ensurePartitions (.num (t.foldl min h)) (.num (t.foldl max h)), .beginTxn] ++
              phaseOps st id (t.foldl max h) ++ [.commitTxn], true⟩ = [t.foldl max h] := by
        intro bufs
        simp [committedProgressOf, phaseOps, List.filterMap_append]
      match fp with
      | none =>
        right; right
        refine ⟨h, t, rfl, ?_⟩
        have heq : flushAll id none st =
            ⟨clearFirst st 13,
              [.ensurePartitions (.num (t.foldl min h)) (.num (t.foldl max h)), .beginTxn] ++
                phaseOps st id (t.foldl max h) ++ [.commitTxn], true⟩ := by
          simp [flushAll, he, hh]
        rw [heq]
        exact ⟨rfl, hne, rfl, hcp _⟩
      | some k =>
        by_cases hk13 : k ≤ 13
        · right; left
          have heq : flushAll id (some k) st =
              ⟨clearFirst st k,
                [.ensurePartitions (.num (t.foldl min h)) (.num (t.foldl max h)), .beginTxn] ++
                  (phaseOps st id (t.foldl max h)).take (k + 1) ++ [.rollbackTxn], false⟩ := by
            simp [flushAll, he, hh, hk13]
          rw [heq]
          exact ⟨rfl, by simp [committedProgressOf], k, rfl⟩
        · by_cases hk14 : k = 14
          · right; left
            have heq : flushAll id (some k) st =
                ⟨clearFirst st 13,
                  [.ensurePartitions (.num (t.foldl min h)) (.num (t.foldl max h)), .beginTxn] ++
                    phaseOps st id (t.foldl max h) ++ [.commitTxn, .rollbackTxn], false⟩ := by
              simp [flushAll, he, hh, hk13, hk14]
            rw [heq]
            exact ⟨rfl, by simp [committedProgressOf], 13, rfl⟩
          · right; right
            refine ⟨h, t, rfl, ?_⟩
            have heq : flushAll id (some k) st =
                ⟨clearFirst st 13,
                  [.ensurePartitions (.num (t.foldl min h)) (.num (t.foldl max h)), .beginTxn] ++
                    phaseOps st id (t.foldl max h) ++ [.commitTxn], true⟩ := by
              simp [flushAll, he, hh, hk13, hk14]
            rw [heq]
            exact ⟨rfl, hne, rfl, hcp _⟩

/-- After all thirteen phases cleared their buffers nothing is buffered. -/
theorem heightsOf_clearFirst13 (st : Buffers) : heightsOf (clearFirst st 13) = [] := by
  simp only [heightsOf, buffersList]
  rw [show (clearFirst st 13).blocks = [] from rfl,
    show (clearFirst st 13).txs = [] from rfl,
    show (clearFirst st 13).msgs = [] from rfl,
    show (clearFirst st 13).events = [] from rfl,
    show (clearFirst st 13).attrs = [] from rfl,
    show (clearFirst st 13).transfers = [] from rfl,
    show (clearFirst st 13).stakeDeleg = [] from rfl,
    show (clearFirst st 13).stakeDistr = [] from rfl,
    show (clearFirst st 13).wasmExec = [] from rfl,
    show (clearFirst st 13).wasmEvents = [] from rfl,
    show (clearFirst st 13).govDeposits = [] from rfl,
    show (clearFirst st 13).govVotes = [] from rfl,
    show (clearFirst st 13).govProposals = [] from rfl]
  rfl

/-- Inductive invariant of a batch-insert run. -/
structure BatchInv (s : BatchRun) : Prop where
  chain : List.Chain' (· < ·) s.progress
  inCommitted : ∀ p ∈ s.progress, p ∈ s.committed
  bufLe : ∀ q ∈ heightsOf s.bufs, ∃ l, s.lastH = some l ∧ q ≤ l
  progLe : ∀ p ∈ s.progress, ∃ l, s.lastH = some l ∧ p ≤ l
  progLtBuf : ∀ p ∈ s.progress, ∀ q ∈ heightsOf s.bufs, p < q

/-- The invariant holds initially. -/
theorem batchInv_init : BatchInv initBatchRun := by
  constructor <;> simp [initBatchRun, heightsOf, buffersList, emptyBuffers, heightsOfRows]

/-- The invariant is preserved by every step. -/
theorem batchInv_step {id : String} {s s' : BatchRun} (inv : BatchInv s)
    (hstep : BatchStep id s s') : BatchInv s' := by
  cases hstep with
  | write blockLine h hbag hlast =>
    refine ⟨inv.chain, inv.inCommitted, ?_, ?_, ?_⟩
    · intro q hq
      simp only [applyBatchWrite] at hq ⊢
      rcases mem_heightsOf_appendRows _ _ _ hq with hold | hnew
      · obtain ⟨l, hl, hle⟩ := inv.bufLe q hold
        exact ⟨h, rfl, le_of_lt (lt_of_le_of_lt hle (hlast l hl))⟩
      · exact ⟨h, rfl, le_of_eq (hbag q hnew)⟩
    · intro p hp
      simp only [applyBatchWrite] at hp ⊢
      obtain ⟨l, hl, hle⟩ := inv.progLe p hp
      exact ⟨h, rfl, le_of_lt (lt_of_le_of_lt hle (hlast l hl))⟩
    · intro p hp q hq
      simp only [applyBatchWrite] at hp hq
      rcases mem_heightsOf_appendRows _ _ _ hq with hold | hnew
      · exact inv.progLtBuf p hp q hold
      · obtain ⟨l, hl, hle⟩ := inv.progLe p hp
        refine lt_of_le_of_lt hle ?_
        rw [hbag q hnew]
        exact hlast l hl
  | flush failPhase =>
    rcases flushAll_spec id failPhase s.bufs with
      ⟨hops, hbufs, hok, hcp⟩ | ⟨hok, hcp, k, hbufs⟩ | ⟨h, t, hh, hok, hops, hbufs, hcp⟩
    · -- inert early return
      refine ⟨?_, ?_, ?_, ?_, ?_⟩
      · show List.Chain' _ (s.progress ++ committedProgressOf _)
        rw [hcp, List.append_nil]
        exact inv.chain
      · intro p hp
        rw [show (applyBatchFlush id failPhase s).progress =
          s.progress ++ committedProgressOf (flushAll id failPhase s.bufs) from rfl,
          hcp, List.append_nil] at hp
        exact List.mem_append.mpr (Or.inl (inv.inCommitted p hp))
      · intro q hq
        rw [show (applyBatchFlush id failPhase s).bufs =
          (flushAll id failPhase s.bufs).bufs from rfl, hbufs] at hq
        exact inv.bufLe q hq
      · intro p hp
        rw [show (applyBatchFlush id failPhase s).progress =
          s.progress ++ committedProgressOf (flushAll id failPhase s.bufs) from rfl,
          hcp, List.append_nil] at hp
        exact inv.progLe p hp
      · intro p hp q hq
        rw [show (applyBatchFlush id failPhase s).progress =
          s.progress ++ committedProgressOf (flushAll id failPhase s.bufs) from rfl,
          hcp, List.append_nil] at hp
        rw [show (applyBatchFlush id failPhase s).bufs =
          (flushAll id failPhase s.bufs).bufs from rfl, hbufs] at hq
        exact inv.progLtBuf p hp q hq
    · -- failed flush: rollback, partial clearing, nothing committed
      refine ⟨?_, ?_, ?_, ?_, ?_⟩
      · show List.Chain' _ (s.progress ++ committedProgressOf _)
        rw [hcp, List.append_nil]
        exact inv.chain
      · intro p hp
        rw [show (applyBatchFlush id failPhase s).progress =
          s.progress ++ committedProgressOf (flushAll id failPhase s.bufs) from rfl,
          hcp, List.append_nil] at hp
        exact List.mem_append.mpr (Or.inl (inv.inCommitted p hp))
      · intro q hq
        rw [show (applyBatchFlush id failPhase s).bufs =
          (flushAll id failPhase s.bufs).bufs from rfl, hbufs] at hq
        exact inv.bufLe q (mem_heightsOf_clearFirst _ _ _ hq)
      · intro p hp
        rw [show (applyBatchFlush id failPhase s).progress =
          s.progress ++ committedProgressOf (flushAll id failPhase s.bufs) from rfl,
          hcp, List.append_nil] at hp
        exact inv.progLe p hp
      · intro p hp q hq
        rw [show (applyBatchFlush id failPhase s).progress =
          s.progress ++ committedProgressOf (flushAll id failPhase s.bufs) from rfl,
          hcp, List.append_nil] at hp
        rw [show (applyBatchFlush id failPhase s).bufs =
          (flushAll id failPhase s.bufs).bufs from rfl, hbufs] at hq
        exact inv.progLtBuf p hp q (mem_heightsOf_clearFirst _ _ _ hq)
    · -- committed flush
      have hmax : t.foldl max h ∈ heightsOf s.bufs := by
        rw [hh]; exact foldl_max_mem h t
      have hcond : ((flushAll id failPhase s.bufs).ok &&
          !(flushAll id failPhase s.bufs).ops.isEmpty) = true := by
        rw [hok]
        simpa [List.isEmpty_iff] using hops
      have hcommitted : (applyBatchFlush id failPhase s).committed =
          s.committed ++ heightsOf s.bufs := by
        rw [show (applyBatchFlush id failPhase s).committed =
          s.committed ++ (if ((flushAll id failPhase s.bufs).ok &&
            !(flushAll id failPhase s.bufs).ops.isEmpty) then heightsOf s.bufs else [])
          from rfl, if_pos hcond]
      have hprog : (applyBatchFlush id failPhase s).progress =
          s.progress ++ [t.foldl max h] := by
        show s.progress ++ committedProgressOf (flushAll id failPhase s.bufs) = _
        rw [hcp]
      refine ⟨?_, ?_, ?_, ?_, ?_⟩
      · rw [hprog, List.chain'_append]
        refine ⟨inv.chain, List.chain'_singleton _, ?_⟩
        intro x hx y hy
        simp only [List.head?_cons, Option.mem_def, Option.some.injEq] at hy
        subst hy
        exact inv.progLtBuf x (mem_of_getLast?' hx) _ hmax
      · intro p hp
        rw [hprog] at hp
        rw [hcommitted]
        rcases List.mem_append.mp hp with hp1 | hp2
        · exact List.mem_append.mpr (Or.inl (inv.inCommitted p hp1))
        · simp only [List.mem_singleton] at hp2
          subst hp2
          exact List.mem_append.mpr (Or.inr hmax)
      · intro q hq
        rw [show (applyBatchFlush id failPhase s).bufs =
          (flushAll id failPhase s.bufs).bufs from rfl, hbufs, heightsOf_clearFirst13] at hq
        cases hq
      · intro p hp
        rw [hprog] at hp
        rcases List.mem_append.mp hp with hp1 | hp2
        · exact inv.progLe p hp1
        · simp only [List.mem_singleton] at hp2
          subst hp2
          exact inv.bufLe _ hmax
      · intro p hp q hq
        rw [show (applyBatchFlush id failPhase s).bufs =
          (flushAll id failPhase s.bufs).bufs from rfl, hbufs, heightsOf_clearFirst13] at hq
        cases hq

/-- Every reachable batch-run state satisfies the invariant. -/
theorem batchInv_reachable {id : String} {s : BatchRun} (h : BatchReachable id s) :
    BatchInv s := by
  induction h with
  | init => exact batchInv_init
  | step _ hstep ih => exact batchInv_step ih hstep

/-- C4: over one batch-insert run in which blocks arrive in strictly
increasing height order, the sequence of `last_height` values durably
written by the progress upserts is strictly increasing (hence monotonic
non-decreasing), and every written value is itself the height of rows
committed by the very transaction that wrote it — so it never exceeds the
highest height committed at that point. -/
theorem progress_monotone_and_committed (id : String) (s : BatchRun)
    (hreach : BatchReachable id s) :
    List.Chain' (· < ·) s.progress ∧ List.Chain' (· ≤ ·) s.progress ∧
    (∀ p ∈ s.progress, p ∈ s.committed) := by
  have inv := batchInv_reachable hreach
  exact ⟨inv.chain, inv.chain.imp (fun a b hab => le_of_lt hab), inv.inCommitted⟩

/-- An assembled block record at height 7 with one transaction, used for the
batch-run demo trace. -/
def batchDemoBlock : Js :=
  Js.obj [("meta", Js.obj [("height", Js.str "7"), ("time", Js.str "2024-01-01T00:00:10Z")]),
    ("block", Js.obj []),
    ("txs", Js.arr [Js.obj [("hash", Js.str "AA11"),
      ("decoded", Js.obj [("body", Js.obj [("messages", Js.arr [Js.obj
        [("@type", Js.str "/cosmos.bank.v1beta1.MsgSend"),
          ("from_address", Js.str "cosmos1askldjqwe0")]])])])]])]

/-- Demo batch run: write the height-7 block, then one clean flush. -/
def batchDemoRun : BatchRun :=
  applyBatchFlush "default" none (applyBatchWrite initBatchRun batchDemoBlock 7)

/-- The demo batch run is reachable. -/
theorem batchDemoRun_reachable : BatchReachable "default" batchDemoRun :=
  BatchReachable.step
    (BatchReachable.step BatchReachable.init
      (BatchStep.write _ batchDemoBlock 7 (by decide)
        (by intro l hl; simp [initBatchRun] at hl)))
    (BatchStep.flush _ none)

/-- Witness for `progress_monotone_and_committed` on the demo batch run. -/
theorem progress_monotone_and_committed_witness :
    List.Chain' (· < ·) batchDemoRun.progress ∧
    List.Chain' (· ≤ ·) batchDemoRun.progress ∧
    (∀ p ∈ batchDemoRun.progress, p ∈ batchDemoRun.committed) :=
  progress_monotone_and_committed "default" batchDemoRun batchDemoRun_reachable

/-! ## Deep key case conversion (src/utils/case.ts)

JS `\s` and Unicode case mapping are modelled over the ASCII range, which
covers every key this pipeline converts. -/

/-- The two case modes. -/
inductive CaseModeL where
  | snake
  | camel

/-- Character class `[-\s]` of `toSnakeKey`'s second replacement. -/
def isSepSnake (c : Char) : Bool :=
  c = '-' ∨ c = ' ' ∨ c = '\t' ∨ c = '\n' ∨ c = '\r'

/-- Character class `[_-\s]` of `toCamelKey`'s replacement. -/
def isSepCamel (c : Char) : Bool :=
  c = '_' ∨ c = '-' ∨ c = ' ' ∨ c = '\t' ∨ c = '\n' ∨ c = '\r'

/-- ASCII lowercase of a character. -/
def lowerChar (c : Char) : Char :=
  if 'A' ≤ c ∧ c ≤ 'Z' then Char.ofNat (c.toNat + 32) else c

/-- The replacement `replace(/([A-Z])/g, "_$1")`. -/
def expandUpper (cs : List Char) : List Char :=
  cs.flatMap (fun c => if 'A' ≤ c ∧ c ≤ 'Z' then ['_', c] else [c])

/-- The replacement `replace(/[-\s]+/g, "_")`. -/
def collapseSeps : List Char → List Char
  | [] => []
  | c :: rest =>
    if isSepSnake c then '_' :: collapseSeps (rest.dropWhile isSepSnake)
    else c :: collapseSeps rest
termination_by cs => cs.length
decreasing_by
  · simp only [List.length_cons]
    exact Nat.lt_succ_of_le (List.dropWhile_sublist _).length_le
  · simp

/-- `toSnakeKey`. -/
def toSnakeKey (k : String) : String :=
  String.mk ((collapseSeps (expandUpper k.data)).map lowerChar)

/-- The replacement `replace(/[_-\s]+([a-zA-Z0-9])/g, (_, c) =>
c.toUpperCase())` of `toCamelKey`, scanning left to right. -/
def camelSteps : List Char → List Char
  | [] => []
  | c :: rest =>
    if isSepCamel c then
      match h : rest.dropWhile isSepCamel with
      | d :: rest2 =>
        if d.isAlphanum then upperChar d :: camelSteps rest2
        else (c :: rest.takeWhile isSepCamel) ++ camelSteps (rest.dropWhile isSepCamel)
      | [] => c :: rest.takeWhile isSepCamel
    else c :: camelSteps rest
termination_by cs => cs.length
decreasing_by
  · simp only [List.length_cons]
    have h1 : (rest.dropWhile isSepCamel).length ≤ rest.length :=
      (List.dropWhile_sublist _).length_le
    rw [h] at h1
    simp only [List.length_cons] at h1
    omega
  · simp only [List.length_cons]
    exact Nat.lt_succ_of_le (List.dropWhile_sublist _).length_le
  · simp

/-- `toCamelKey`. -/
def toCamelKey (k : String) : String :=
  String.mk (camelSteps k.data)

/-- Key conversion for one mode. -/
def convKey (mode : CaseModeL) (k : String) : String :=
  match mode with
  | .snake => toSnakeKey k
  | .camel => toCamelKey k

/-- `deepConvertKeys`: recursively convert keys of plain objects, leaving
arrays and primitives intact and preserving `@`-prefixed keys. -/
def deepConvertKeys (mode : CaseModeL) : Js → Js
  | .arr xs => .arr (xs.attach.map (fun x => deepConvertKeys mode x.1))
  | .obj fs => .obj (fs.attach.map (fun p =>
      (if p.1.1.startsWith "@" then p.1.1 else convKey mode p.1.1,
        deepConvertKeys mode p.1.2)))
  | v => v
termination_by v => sizeOf v
decreasing_by
  · have := List.sizeOf_lt_of_mem x.2
    simp only [Js.arr.sizeOf_spec]
    omega
  · have h1 := List.sizeOf_lt_of_mem p.2
    have h2 : sizeOf p.1.2 < sizeOf p.1 := by
      obtain ⟨a, b⟩ := p.1
      simp only [Prod.mk.sizeOf_spec]
      omega
    simp only [Js.obj.sizeOf_spec]
    omega

/-! ## Event normalization over dynamic values
(src/normalize/events/normalize.ts) -/

/-- `normalizeAttr`: stringify key and value, try a base64→UTF-8 decode on
both, default `index` to `true`. -/
def normalizeAttrJs (a : Js) : Js :=
  .obj [("key", .str (tryB64ToUtf8 (jsToString (jsNullish (a.get "key") (.str ""))))),
    ("value", .str (tryB64ToUtf8 (jsToString (jsNullish (a.get "value") (.str ""))))),
    ("index", jsNullish (a.get "index") (.jbool true))]

/-- `normalizeEvent`. -/
def normalizeEventJs (e : Js) : Js :=
  .obj [("type", .str (jsToString (jsNullish (e.get "type") (.str "")))),
    ("attributes", .arr ((if (e.get "attributes").isArr then
      normArray (e.get "attributes") else []).map normalizeAttrJs))]

/-- `normalizeEvents`. -/
def normalizeEventsJs (evs : Js) : List Js :=
  if evs.isArr then (normArray evs).map normalizeEventJs else []

/-! ## Raw-log parsing (src/normalize/events/parse.ts). `JSON.parse` is the
platform parser, supplied as the `parse` argument. -/

/-- `parseRawLogToStructured`. -/
def parseRawLogToStructured (parse : String → Option Js) (rawLog : String) :
    List Js :=
  if rawLog = "" then []
  else
    match parse rawLog with
    | none => []
    | some parsed =>
      if ¬parsed.isArr then []
      else
        (normArray parsed).map (fun entry =>
          let msgIdx := jsToNumber (jsNullish (entry.get "msg_index")
            (jsNullish (entry.get "msgIndex") (.num 0)))
          .obj [("msg_index",
            match msgIdx with
            | .num q => .num q
            | _ => .num 0),
            ("events", .arr (normalizeEventsJs (entry.get "events")))])

/-- `buildCombinedLogs`: per-message entries parsed from `raw_log` plus, when
nonempty, the (re-normalized) tx-level events as a pseudo-entry with
`msg_index = null`. -/
def buildCombinedLogs (parse : String → Option Js) (rawLog : String)
    (txLevelEvents : Js) : List Js :=
  let msgLevel := parseRawLogToStructured parse rawLog
  let txLevel := normalizeEventsJs txLevelEvents
  msgLevel ++ (if txLevel.isEmpty then []
    else [.obj [("msg_index", .jnull), ("events", .arr txLevel)]])

/-! ## Block assembly (src/assemble/blockJson.ts). The SHA-256 digest is the
platform's `crypto.subtle.digest('SHA-256', ·)`, supplied as the `sha`
argument; `sha256Hex` (src/utils/bytes.ts) is its uppercase hex rendering. -/

/-- `sha256Hex`: uppercase hex of the digest. -/
def sha256Hex (sha : List ℕ → List ℕ) (bytes : List ℕ) : String :=
  toUpperAscii (bytesToHex (sha bytes))

/-- Block metadata extracted by `getMeta`. -/
structure BlockMeta where
  chain_id : String
  height : String
  time : String

/-- `getMeta`. -/
def getMeta (b : Js) : BlockMeta :=
  let header := jsNullish ((b.get "block").get "header") (.obj [])
  ⟨jsToString (jsNullish (header.get "chain_id") (.str "")),
    jsToString (jsNullish (header.get "height")
      (jsNullish (((b.get "block").get "last_commit").get "height") (.str ""))),
    jsToString (jsNullish (header.get "time") (.str ""))⟩

/-- `getTxsBase64`: the base64 transaction list, non-strings filtered out. -/
def getTxsBase64 (b : Js) : List String :=
  match ((b.get "block").get "data").get "txs" with
  | .arr xs => xs.filterMap (fun x =>
      match x with
      | .str s => some s
      | _ => none)
  | _ => []

/-- `getTxsResults`: align `txs_results` with the tx count, padding missing
entries with `{ code: 0, events: [] }`. -/
def getTxsResults (br : Js) (count : ℕ) : List Js :=
  let arr := normArray (br.get "txs_results")
  if arr.length = count then arr
  else (List.range count).map (fun i =>
    jsNullish (arr.getD i .undef) (.obj [("code", .num 0), ("events", .arr [])]))

/-- The placeholder decoded tx used when `decoded[i]` is nullish
(src/assemble/blockJson.ts lines 90–103). -/
def defaultDecodedTx : Js :=
  .obj [("@type", .str "/cosmos.tx.v1beta1.Tx"),
    ("body", .obj [("messages", .arr []), ("memo", .str ""),
      ("timeout_height", .str "0"), ("unordered", .jbool false),
      ("timeout_timestamp", .jnull), ("extension_options", .arr []),
      ("non_critical_extension_options", .arr [])]),
    ("auth_info", .obj [("signer_infos", .arr []),
      ("fee", .obj [("amount", .arr []), ("gas_limit", .str "0"), ("payer", .str ""),
        ("granter", .str "")]),
      ("tip", .jnull)]),
    ("signatures", .arr [])]

/-- Message conversion of `assembleTxObjects`: preserve the `@type` marker
exactly, case-convert the payload keys. -/
def convMsg (mode : CaseModeL) (m : Js) : Js :=
  match m with
  | .obj fs =>
    let atype := (Js.obj fs).get "@type"
    let rest := Js.obj (fs.filter (fun p => p.1 ≠ "@type"))
    let converted := deepConvertKeys mode rest
    if ¬atype.isUndef then
      .obj (("@type", atype) ::
        (match converted with
        | .obj cs => cs
        | _ => []))
    else converted
  | v => v

/-- The tx object pushed for index `i` (src/assemble/blockJson.ts lines
85–138), given the already-decoded raw bytes. -/
def mkTxObj (sha : List ℕ → List ℕ) (parse : String → Option Js)
    (heightISOTime : String) (results : List Js) (decoded : List Js) (br : Js)
    (mode : CaseModeL) (i : ℕ) (rawB64 : String) (rawBytes : List ℕ) : Js :=
  let hash := sha256Hex sha rawBytes
  let decodedTx := jsNullish (decoded.getD i .undef) defaultDecodedTx
  let msgs :=
    if ((decodedTx.get "body").get "messages").isArr then
      (normArray ((decodedTx.get "body").get "messages")).map (convMsg mode)
    else []
  let body := objUpsert
    (match decodedTx.get "body" with
    | .obj fs => .obj fs
    | _ => .obj []) "messages" (.arr msgs)
  let r := jsNullish (results.getD i .undef) (.obj [])
  let txLevelEvents := normalizeEventsJs (jsNullish (r.get "events") (.arr []))
  let rawLog := jsToString (jsNullish (r.get "log") (.str ""))
  let logs := buildCombinedLogs parse rawLog (.arr txLevelEvents)
  .obj [("index", .num (i : ℚ)), ("hash", .str hash),
    ("raw", .obj [("base64", .str rawB64),
      ("hex", .str (toUpperAscii (bytesToHex rawBytes)))]),
    ("decoded", objUpsert decodedTx "body" body),
    ("tx_response", .obj [
      ("height", .str (jsToString (jsNullish (br.get "height") (.str "")))),
      ("codespace", .str (jsToString (jsNullish (r.get "codespace") (.str "")))),
      ("code", jsToNumber (jsNullish (r.get "code") (.num 0))),
      ("data", .str (jsToString (jsNullish (r.get "data") (.str "")))),
      ("raw_log", .str rawLog),
      ("logs", .arr logs),
      ("events", .arr txLevelEvents),
      ("gas_wanted", .str (jsToString (jsNullish (r.get "gas_wanted") (.str "")))),
      ("gas_used", .str (jsToString (jsNullish (r.get "gas_used") (.str "")))),
      ("timestamp", .str heightISOTime)])]

/-- The per-index loop of `assembleTxObjects`; `fromBase64` throws (`none`)
on invalid base64 and aborts the whole assembly. -/
def assembleTxGo (sha : List ℕ → List ℕ) (parse : String → Option Js)
    (heightISOTime : String) (results : List Js) (decoded : List Js) (br : Js)
    (mode : CaseModeL) : ℕ → List String → Option (List Js)
  | _, [] => some []
  | i, rawB64 :: rest =>
    match cosmBase64Decode rawB64 with
    | none => none
    | some rawBytes =>
      match assembleTxGo sha parse heightISOTime results decoded br mode (i + 1) rest with
      | none => none
      | some out =>
        some (mkTxObj sha parse heightISOTime results decoded br mode i rawB64 rawBytes :: out)

/-- `assembleTxObjects`. -/
def assembleTxObjects (sha : List ℕ → List ℕ) (parse : String → Option Js)
    (heightISOTime : String) (txsB64 : List String) (decoded : List Js) (br : Js)
    (mode : CaseModeL) : Option (List Js) :=
  assembleTxGo sha parse heightISOTime (getTxsResults br txsB64.length) decoded br mode 0 txsB64

/-- `stripLarge` with its default options performs a shallow copy and drops
nothing, so its content is the input. -/
def stripLargeDefault (obj : Js) : Js := obj

/-- `assembleBlockJsonFromParts`. -/
def assembleBlockJsonFromParts (sha : List ℕ → List ℕ) (parse : String → Option Js)
    (blockResp blockResultsResp : Js) (decodedTxs : List Js) (mode : CaseModeL) :
    Option Js :=
  let meta := getMeta blockResp
  let txsB64 := getTxsBase64 blockResp
  (assembleTxObjects sha parse meta.time txsB64 decodedTxs blockResultsResp mode).map
    (fun txObjs =>
      .obj [("meta", .obj [("chain_id", .str meta.chain_id),
        ("height", .str meta.height), ("time", .str meta.time)]),
        ("block", stripLargeDefault blockResp),
        ("block_results", stripLargeDefault blockResultsResp),
        ("txs", .arr txObjs)])

/-- Per-tx hash shape of the assembly loop. -/
theorem assembleTxGo_hashes (sha : List ℕ → List ℕ) (parse : String → Option Js)
    (t : String) (results decoded : List Js) (br : Js) (mode : CaseModeL) :
    ∀ (txs : List String) (i : ℕ) (out : List Js),
      assembleTxGo sha parse t results decoded br mode i txs = some out →
      ∀ tx ∈ out, ∃ b64 bytes,
        (tx.get "raw").get "base64" = Js.str b64 ∧
        cosmBase64Decode b64 = some bytes ∧
        tx.get "hash" = Js.str (toUpperAscii (bytesToHex (sha bytes))) := by
  intro txs
  induction txs with
  | nil =>
    intro i out h tx htx
    simp only [assembleTxGo] at h
    injection h with h
    rw [← h] at htx
    cases htx
  | cons rawB64 rest ih =>
    intro i out h tx htx
    simp only [assembleTxGo] at h
    cases hdec : cosmBase64Decode rawB64 with
    | none => rw [hdec] at h; cases h
    | some rawBytes =>
      rw [hdec] at h
      cases hrec : assembleTxGo sha parse t results decoded br mode (i + 1) rest with
      | none => rw [hrec] at h; cases h
      | some out' =>
        rw [hrec] at h
        injection h with h
        rw [← h] at htx
        rcases List.mem_cons.mp htx with hhead | htail
        · subst hhead
          exact ⟨rawB64, rawBytes, rfl, hdec, rfl⟩
        · exact ih (i + 1) out' hrec tx htail

/-- C5: in every assembled block record, every transaction's `hash` field is
the uppercase hex SHA-256 digest of the base64-decoded raw transaction
bytes: `hash = upper_hex(sha256(base64_decode(raw.base64)))`. -/
theorem assembled_tx_hashes (sha : List ℕ → List ℕ) (parse : String → Option Js)
    (blockResp blockResultsResp : Js) (decodedTxs : List Js) (mode : CaseModeL)
    (rec : Js)
    (h : assembleBlockJsonFromParts sha parse blockResp blockResultsResp decodedTxs mode =
      some rec) :
    ∀ tx ∈ normArray (rec.get "txs"), ∃ b64 bytes,
      (tx.get "raw").get "base64" = Js.str b64 ∧
      cosmBase64Decode b64 = some bytes ∧
      tx.get "hash" = Js.str (toUpperAscii (bytesToHex (sha bytes))) := by
  simp only [assembleBlockJsonFromParts] at h
  cases hassem : assembleTxObjects sha parse (getMeta blockResp).time
      (getTxsBase64 blockResp) decodedTxs blockResultsResp mode with
  | none => rw [hassem] at h; cases h
  | some txObjs =>
    rw [hassem] at h
    rw [show ∀ (f : List Js → Js) (a : List Js), Option.map f (some a) = some (f a)
      from fun _ _ => rfl] at h
    injection h with h
    have hrec : rec.get "txs" = Js.arr txObjs := by
      rw [← h]
      rfl
    rw [hrec]
    intro tx htx
    exact assembleTxGo_hashes sha parse (getMeta blockResp).time _ decodedTxs
      blockResultsResp mode (getTxsBase64 blockResp) 0 txObjs hassem tx htx

/-- All-zero stand-in digest for the witness. -/
def shaZeroDemo (bs : List ℕ) : List ℕ :=
  List.replicate 32 (bs.length % 256)

/-- A raw block response with one base64 transaction. -/
def hashDemoBlock : Js :=
  Js.obj [("block", Js.obj [("header", Js.obj [("chain_id", Js.str "demo-1"),
    ("height", Js.str "9"), ("time", Js.str "2024-01-01T00:00:20Z")]),
    ("data", Js.obj [("txs", Js.arr [Js.str "AA=="])])])]

/-- The assembled record of the demo block. -/
def hashDemoAssembled : Option Js :=
  assembleBlockJsonFromParts shaZeroDemo (fun _ => none) hashDemoBlock (Js.obj []) []
    CaseModeL.snake

/-- Witness for `assembled_tx_hashes` on the demo block. -/
theorem assembled_tx_hashes_witness :
    (∀ tx ∈ normArray ((hashDemoAssembled.getD Js.undef).get "txs"), ∃ b64 bytes,
      (tx.get "raw").get "base64" = Js.str b64 ∧
      cosmBase64Decode b64 = some bytes ∧
      tx.get "hash" = Js.str (toUpperAscii (bytesToHex (shaZeroDemo bytes)))) ∧
    (normArray ((hashDemoAssembled.getD Js.undef).get "txs")).length = 1 :=
  ⟨assembled_tx_hashes shaZeroDemo (fun _ => none) hashDemoBlock (Js.obj []) []
      CaseModeL.snake (hashDemoAssembled.getD Js.undef) rfl,
    by decide⟩

end Indexer
